import Mathlib

/-!
Verification development for the SingleCellFusion integration module
(`src/singlecellfusion/integration.py`).

The Python source merges sparse feature-by-sample count matrices from several
loom datasets into one output loom file, either fully in memory
(`high_mem_integrate`, built on pandas concatenation) or by streaming sample
batches (`low_mem_integrate` / `low_mem_add_data`, built on sparse coordinate
remapping and incremental appends).

The embedding below models:
  * loom datasets as finite tables with named row/column attributes and a
    total layer function (values in `ℚ`; a dense pandas cell is `Option ℚ`,
    `none` standing for the float NaN produced by an outer join);
  * the pandas/scipy operations the source relies on (`DataFrame.loc` over a
    label index, `Series.replace` with a dict, `pd.concat(axis=0, sort=False)`,
    `coo_matrix` construction, fancy indexing);
  * the repository helpers from `singlecellfusion.utils` that are not part of
    the provided source; each such definition carries a doc comment starting
    with `Modelled from the spec:` and follows the specification text.

Python exceptions are modelled with `Except` / an explicit error field;
`UnboundLocalError` is modelled for the unconditional `np.hstack(type_dat)`
in `high_mem_integrate`.
-/

namespace SCF

instance exceptDecEq {ε α : Type} [DecidableEq ε] [DecidableEq α] :
    DecidableEq (Except ε α) := fun x y =>
  match x, y with
  | .ok a, .ok b =>
    if h : a = b then isTrue (by rw [h])
    else isFalse (fun he => by cases he; exact h rfl)
  | .ok _, .error _ => isFalse (fun he => by cases he)
  | .error _, .ok _ => isFalse (fun he => by cases he)
  | .error e, .error f =>
    if h : e = f then isTrue (by rw [h])
    else isFalse (fun he => by cases he; exact h rfl)

/-! ## Generic list helpers -/

/-- First index of `x` in a list (length of the list if absent) —
used to model a pandas label lookup on a unique index. -/
def idxOf (x : String) : List String → ℕ
  | [] => 0
  | y :: ys => if y = x then 0 else idxOf x ys + 1

/-- All positions of label `x` in `xs`, in ascending order: the row positions
a pandas `.loc[x]` selects from a (possibly duplicated) label index. -/
def positionsOf (x : String) : List String → List ℕ
  | [] => []
  | y :: ys =>
    if y = x then 0 :: (positionsOf x ys).map (· + 1)
    else (positionsOf x ys).map (· + 1)

/-- NumPy fancy indexing `xs[idx]`. -/
def select (xs : List α) (idx : List ℕ) (dflt : α) : List α :=
  idx.map (fun i => xs.getD i dflt)

/-- Consecutive blocks of at most `max 1 bs` elements, as produced by
`loompy.scan(..., batch_size=bs)` over the item list. -/
def chunkListF (bs : ℕ) : ℕ → List α → List (List α)
  | 0, _ => []
  | _, [] => []
  | fuel + 1, x :: rest =>
    (x :: rest).take (max 1 bs) ::
      chunkListF bs fuel ((x :: rest).drop (max 1 bs))

def chunkList (bs : ℕ) (xs : List α) : List (List α) :=
  chunkListF bs xs.length xs

/-! ## Data model -/

/-- A loom dataset: named string-valued row/column attributes (feature and
cell identifiers), named boolean validity attributes, and named count layers
given as total value functions on (row, column) positions. -/
structure Dataset where
  name : String
  nRows : ℕ
  nCols : ℕ
  ra : String → Option (List String)
  ca : String → Option (List String)
  validRa : String → Option (List Bool)
  validCa : String → Option (List Bool)
  layer : String → ℕ → ℕ → ℚ

/-- The failures the integration paths can surface.  `featureAlignment` is the
error class named by the specification's error taxonomy; the code model never
produces it. -/
inductive IntError
  | attributeNotFound (name : String)
  | keyError (keys : List String)
  | unboundLocal (name : String)
  | parameterShape
  | schemaMismatch (expected got : ℕ)
  | attrMismatch (name : String)
  | fileNotFound (name : String)
  | featureAlignment (ids : List String)
deriving DecidableEq, Repr

/-- A sparse coordinate chunk: declared shape plus (row, col, value) entries. -/
structure SparseChunk where
  nRows : ℕ
  nCols : ℕ
  entries : List (ℕ × ℕ × ℚ)
deriving DecidableEq, Repr

/-- A Python scalar-or-list argument. -/
inductive PyParam (α : Type) where
  | scalar (a : α)
  | list (xs : List α)

/-! ## Spec-modelled collaborators from `singlecellfusion.utils` -/

/-- Modelled from the spec: `utils.remove_gene_version` is not under `src/`;
section 1 calls it a pure string transform stripping a trailing dotted
version suffix from a gene identifier (GENCODE style). -/
def remove_gene_version (s : String) : String :=
  (s.splitOn ".").headD s

/-- Apply GENCODE version stripping to every identifier when requested. -/
def stripIf (b : Bool) (xs : List String) : List String :=
  if b then xs.map remove_gene_version else xs

/-- Modelled from the spec: `utils.get_attr_index` is not under `src/`.
Per section 4.1, with no attribute name it returns all positions of the axis
in original order; with a name it returns the positions where the validity
attribute is truthy, in ascending order, and fails with
`AttributeNotFoundError` when the named attribute does not exist. -/
def get_attr_index (ds : Dataset) (attr : Option String) (columns : Bool) :
    Except IntError (List ℕ) :=
  let dim := if columns then ds.nCols else ds.nRows
  match attr with
  | none => .ok (List.range dim)
  | some a =>
    match (if columns then ds.validCa else ds.validRa) a with
    | none => .error (.attributeNotFound a)
    | some v => .ok ((List.range dim).filter (fun i => v.getD i false))

/-- Modelled from the spec: `utils.mimic_list` is not under `src/`.  Per
section 4.7, each per-target parameter is either a scalar (broadcast to all
targets) or a list of exactly the target-list length; any other shape fails
with `ParameterShapeError`. -/
def mimic_list (p : PyParam α) (n : ℕ) : Except IntError (List α) :=
  match p with
  | .scalar a => .ok (List.replicate n a)
  | .list xs => if xs.length = n then .ok xs else .error .parameterShape

/-- Reading a string row attribute (`ds.ra[name]`); loompy raises when the
attribute is missing. -/
def getRa (ds : Dataset) (a : String) : Except IntError (List String) :=
  match ds.ra a with
  | some v => .ok v
  | none => .error (.attributeNotFound a)

/-- Reading a string column attribute (`ds.ca[name]`). -/
def getCa (ds : Dataset) (a : String) : Except IntError (List String) :=
  match ds.ca a with
  | some v => .ok v
  | none => .error (.attributeNotFound a)

/-! ## Normalized per-target configuration -/

/-- One target dataset together with its per-target parameters, after
scalar-or-list normalization. -/
structure TargetSpec where
  ds : Dataset
  layer : String
  featAttr : String
  cellAttr : String
  label : Option String
  validRa : Option String
  validCa : Option String

/-- Zip the seven normalized parameter lists into per-target records. -/
def zipSpecs : List Dataset → List String → List String → List String →
    List (Option String) → List (Option String) → List (Option String) →
    List TargetSpec
  | d :: ds, l :: ls, f :: fs, c :: cs, b :: bs, r :: rs, q :: qs =>
    ⟨d, l, f, c, b, r, q⟩ :: zipSpecs ds ls fs cs bs rs qs
  | _, _, _, _, _, _, _ => []

/-- The input-checking block shared by `high_mem_integrate` (lines 234-263)
and `low_mem_integrate` (lines 379-405).  The length checks of
`utils.all_same_type_size` and `utils.mimic_list` are modelled from the spec
(section 4.7) since `utils` is not under `src/`: with a target list, every
per-target parameter must be a scalar or a list of the same length. -/
def normalizeTargets (tgt : PyParam Dataset) (layerT : PyParam String)
    (featT cellT : PyParam String) (labT vraT vcaT : PyParam (Option String)) :
    Except IntError (List TargetSpec) :=
  match tgt with
  | .scalar d =>
    match layerT, featT, cellT, labT, vraT, vcaT with
    | .scalar l, .scalar f, .scalar c, .scalar b, .scalar r, .scalar q =>
      .ok [⟨d, l, f, c, b, r, q⟩]
    | _, _, _, _, _, _ => .error .parameterShape
  | .list ds => do
    let layers ← mimic_list layerT ds.length
    let feats ← mimic_list featT ds.length
    let cells ← mimic_list cellT ds.length
    let vras ← mimic_list vraT ds.length
    let vcas ← mimic_list vcaT ds.length
    let labs ← mimic_list labT ds.length
    .ok (zipSpecs ds layers feats cells labs vras vcas)

/-! ## Full-memory engine (`high_mem_get_data`, `high_mem_integrate`) -/

/-- A pandas DataFrame as used by the full-memory path after the transpose in
`high_mem_get_data`: row labels are sample identifiers, column labels are
feature identifiers, and a cell is addressed by row position and column
label.  `none` is a missing cell (NaN). -/
structure PDFrame where
  index : List String
  columns : List String
  val : ℕ → String → Option ℚ

def emptyFrame : PDFrame := ⟨[], [], fun _ _ => none⟩

/-- Option-valued first index of a label, as used for a column-label lookup
in a DataFrame. -/
def firstIdx? (x : String) (xs : List String) : Option ℕ :=
  if xs.contains x then some (idxOf x xs) else none

/-- `high_mem_get_data` (integration.py lines 20-64): select valid rows and
columns, densify the requested sparse sub-matrix, label it with the feature
and cell identifier attributes, optionally strip gene versions, transpose. -/
def high_mem_get_data (ds : Dataset) (layer featAttr cellAttr : String)
    (validRa validCa : Option String) (rmv : Bool) :
    Except IntError PDFrame := do
  let rowIdx ← get_attr_index ds validRa false
  let colIdx ← get_attr_index ds validCa true
  let featsRaw ← getRa ds featAttr
  let cells ← getCa ds cellAttr
  let feats := stripIf rmv (select featsRaw rowIdx "")
  .ok { index := select cells colIdx ""
        columns := feats
        val := fun j f =>
          (firstIdx? f feats).map
            (fun i => ds.layer layer (rowIdx.getD i 0) (colIdx.getD j 0)) }

/-- `high_mem_repeat_label` (lines 167-187): a label repeated once per valid
column. -/
def high_mem_repeat_label (ds : Dataset) (validCa : Option String)
    (label : α) : Except IntError (List α) := do
  let colIdx ← get_attr_index ds validCa true
  .ok (List.replicate colIdx.length label)

/-- Column-label union of `pd.concat(axis=0, sort=False)`: columns of the
first frame, then the unseen columns of each later frame in order of
appearance. -/
def unionCols (fs : List PDFrame) : List String :=
  fs.foldl (fun acc F => acc ++ F.columns.filter (fun c => ¬ acc.contains c)) []

/-- Cell of the concatenated frame at global row position `p` and column
label `f`; rows of a frame lacking `f` read NaN (`none`). -/
def concatVal : List PDFrame → ℕ → String → Option ℚ
  | [], _, _ => none
  | F :: rest, p, f =>
    if p < F.index.length then F.val p f
    else concatVal rest (p - F.index.length) f

/-- Collect the per-target frames, mirroring the target loop of
`high_mem_integrate` (lines 281-313). -/
def getFrames (rmv : Bool) : List TargetSpec → Except IntError (List PDFrame)
  | [] => .ok []
  | sp :: rest => do
    let F ← high_mem_get_data sp.ds sp.layer sp.featAttr sp.cellAttr
      sp.validRa sp.validCa rmv
    let fs ← getFrames rmv rest
    .ok (F :: fs)

/-- Collect the per-target `OriginalFile` label blocks. -/
def getFileLabels : List TargetSpec → Except IntError (List (List String))
  | [] => .ok []
  | sp :: rest => do
    let l ← high_mem_repeat_label sp.ds sp.validCa sp.ds.name
    let ls ← getFileLabels rest
    .ok (l :: ls)

/-- Collect the per-target `Modality` label blocks (only reached when both
labels were provided). -/
def getTypeLabels : List TargetSpec → Except IntError (List (List (Option String)))
  | [] => .ok []
  | sp :: rest => do
    let l ← high_mem_repeat_label sp.ds sp.validCa sp.label
    let ls ← getTypeLabels rest
    .ok (l :: ls)

/-- The created output loom file of the full-memory path, fully materialized.
A matrix cell is `none` where the written dense value was NaN. -/
structure LoomOutput where
  matrix : List (List (Option ℚ))
  accession : List String
  cellId : List String
  originalFile : List String
  modality : Option (List (Option String))
deriving DecidableEq, Repr

/-- Whether `label_target` `is not None` in Python (a list is never None). -/
def labTargetGiven : PyParam (Option String) → Bool
  | .scalar a => a.isSome
  | .list _ => true

/-- `high_mem_integrate` (integration.py lines 190-330).  Mirrors the code:
input checking, source frame, per-target frames and label blocks,
`pd.concat(axis=0, sort=False)` along samples with an outer join on feature
labels, then the single write.  The unconditional `type_dat =
np.hstack(type_dat)` at line 316 raises `UnboundLocalError` whenever
`is_type` is false, which the model reproduces. -/
def high_mem_integrate (src : Dataset) (tgt : PyParam Dataset)
    (layerS : String) (layerT : PyParam String) (featS : String)
    (featT : PyParam String) (cellS : String) (cellT : PyParam String)
    (labS : Option String) (labT : PyParam (Option String))
    (vraS : Option String) (vraT : PyParam (Option String))
    (vcaS : Option String) (vcaT : PyParam (Option String)) (rmv : Bool) :
    Except IntError LoomOutput := do
  let isType := labS.isSome && labTargetGiven labT
  let specs ← normalizeTargets tgt layerT featT cellT labT vraT vcaT
  let srcFrame ← high_mem_get_data src layerS featS cellS vraS vcaS rmv
  let srcType ← high_mem_repeat_label src vcaS labS
  let srcFile ← high_mem_repeat_label src vcaS src.name
  let tgtFrames ← getFrames rmv specs
  let tgtTypes ← getTypeLabels specs
  let tgtFiles ← getFileLabels specs
  let frames := srcFrame :: tgtFrames
  let typeDat : Option (List (Option String)) :=
    if isType then some ((srcType :: tgtTypes).flatten) else none
  let fileDat := (srcFile :: tgtFiles).flatten
  let cols := unionCols frames
  let cellIds := (frames.map (fun F => F.index)).flatten
  match typeDat with
  | none => .error (.unboundLocal "type_dat")
  | some types =>
    .ok { matrix := (List.range cols.length).map
            (fun i => (List.range cellIds.length).map
              (fun j => concatVal frames j (cols.getD i "")))
          accession := cols
          cellId := cellIds
          originalFile := fileDat
          modality := if isType then some types else none }

/-! ## Streaming engine (`low_mem_add_data`, `low_mem_integrate`) -/

/-- The growing output loom file of the streaming path: fixed row schema,
column blocks appended in arrival order, coordinate entries (duplicates sum
on read, as in a scipy COO matrix). -/
structure OutStore where
  nRows : ℕ
  nCols : ℕ
  entries : List (ℕ × ℕ × ℚ)
  accession : List String
  cellId : List String
  originalFile : List String
  modality : Option (List (Option String))
deriving DecidableEq, Repr

/-- Per-batch column attributes. -/
structure ColAttrs where
  cellId : List String
  originalFile : List String
  modality : Option (List (Option String))
deriving DecidableEq, Repr

/-- Modelled from the spec: `utils.batch_add_sparse` is not under `src/`.
Per sections 4.5 and 6, a non-append call creates the store, establishing
the row attributes and first column block; an append call requires the
chunk's row count to equal the store's fixed row count (else
`SchemaMismatchError`), leaves row attributes unchanged, and grows the
matrix and every column-attribute array by concatenation in arrival order. -/
def batch_add_sparse (store : Option OutStore) (chunk : SparseChunk)
    (rowIds : List String) (attrs : ColAttrs) (append : Bool) :
    Except IntError OutStore :=
  if append then
    match store with
    | none => .error (.fileNotFound "out_loom")
    | some st =>
      if chunk.nRows ≠ st.nRows then .error (.schemaMismatch st.nRows chunk.nRows)
      else
        match st.modality, attrs.modality with
        | some m, some b =>
          .ok { st with
                nCols := st.nCols + chunk.nCols
                entries := st.entries ++
                  chunk.entries.map (fun e => (e.1, e.2.1 + st.nCols, e.2.2))
                cellId := st.cellId ++ attrs.cellId
                originalFile := st.originalFile ++ attrs.originalFile
                modality := some (m ++ b) }
        | none, none =>
          .ok { st with
                nCols := st.nCols + chunk.nCols
                entries := st.entries ++
                  chunk.entries.map (fun e => (e.1, e.2.1 + st.nCols, e.2.2))
                cellId := st.cellId ++ attrs.cellId
                originalFile := st.originalFile ++ attrs.originalFile
                modality := none }
        | _, _ => .error (.attrMismatch "Modality")
  else
    .ok { nRows := chunk.nRows
          nCols := chunk.nCols
          entries := chunk.entries
          accession := rowIds
          cellId := attrs.cellId
          originalFile := attrs.originalFile
          modality := attrs.modality }

/-- The sparse slice `view.layers[layer].sparse(row_idx, arange(view.shape[1]))`
for the batch with column positions `cols`: coordinate entries of the nonzero
values, row-major. -/
def sparseSlice (ds : Dataset) (layer : String) (rows cols : List ℕ) :
    SparseChunk :=
  { nRows := rows.length
    nCols := cols.length
    entries := (List.range rows.length).flatMap (fun i =>
      (List.range cols.length).filterMap (fun j =>
        if ds.layer layer (rows.getD i 0) (cols.getD j 0) = 0 then none
        else some (i, j, ds.layer layer (rows.getD i 0) (cols.getD j 0)))) }

/-- The canonical identifiers `out_ids` of `low_mem_add_data` (lines 111-120):
read from the row attribute literally named `Accession` — of the input file
when creating, of the existing output file when appending — then optionally
version-stripped. -/
def lowMemOutIds (inDs : Dataset) (store : Option OutStore) (genOut : Bool)
    (rmv : Bool) (rowIdx : List ℕ) : Except IntError (List String) := do
  let base ←
    if genOut then do
      let acc ← getRa inDs "Accession"
      pure (select acc rowIdx "")
    else
      match store with
      | some st => pure st.accession
      | none => .error (.fileNotFound "out_loom")
  pure (stripIf rmv base)

/-- The row positions `DataFrame({'old_idx': arange}, index=feat_ids).loc[out_ids]`
selects (lines 128-130): for each canonical identifier, every position holding
it in the local identifiers; raises a pandas `KeyError` listing the canonical
identifiers missing from the local index. -/
def locPositions (featIds outIds : List String) : Except IntError (List ℕ) :=
  if (outIds.filter (fun x => ¬ featIds.contains x)).isEmpty then
    .ok (outIds.flatMap (fun x => positionsOf x featIds))
  else .error (.keyError (outIds.filter (fun x => ¬ featIds.contains x)))

/-- The dict `pd.Series(new_idx, index=old_idx).to_dict()` (lines 131-134):
maps `ps k ↦ k`; on duplicate keys the later binding wins. -/
def featDictFn (ps : List ℕ) : ℕ → Option ℕ :=
  fun r => ((ps.enum.filter (fun kp => kp.2 = r)).getLast?).map (fun kp => kp.1)

/-- `Series.replace(to_replace=dict)` on one row index: mapped values are
replaced, values absent from the dict pass through unchanged. -/
def replaceFn (ps : List ℕ) (r : ℕ) : ℕ :=
  (featDictFn ps r).getD r

/-- The remap step (lines 142-147): replace each row index through the dict,
keep column indices and values, and declare the shape
`(dat.shape[0], dat.shape[1])` of the input chunk. -/
def remapChunk (ps : List ℕ) (chunk : SparseChunk) : SparseChunk :=
  { nRows := chunk.nRows
    nCols := chunk.nCols
    entries := chunk.entries.map (fun e => (replaceFn ps e.1, e.2.1, e.2.2)) }

/-- The mutable run state of a streaming merge: the output store (if created),
the append-flag trace of the successful writes, and the pending exception. -/
structure RunState where
  store : Option OutStore
  trace : List Bool
  err : Option IntError
deriving Repr, DecidableEq

def initState : RunState := ⟨none, [], none⟩

/-- One iteration of the scan loop of `low_mem_add_data` (lines 136-164):
slice the batch, remap it when appending, assemble the column attributes and
write.  A raised exception freezes the state. -/
def processBatch (inDs : Dataset) (layer cellAttr : String)
    (label : Option String) (rowIdx : List ℕ) (ps : List ℕ)
    (outIds featIds : List String) (append : Bool) (sel : List ℕ)
    (st : RunState) : RunState :=
  match st.err with
  | some _ => st
  | none =>
    match inDs.ca cellAttr with
    | none => { st with err := some (.attributeNotFound cellAttr) }
    | some caVals =>
      let dat0 := sparseSlice inDs layer rowIdx sel
      let dat := if append then remapChunk ps dat0 else dat0
      let addIds := if append then outIds else featIds
      let attrs : ColAttrs :=
        { cellId := select caVals sel ""
          originalFile := List.replicate sel.length inDs.name
          modality := label.map (fun l => List.replicate sel.length (some l)) }
      match batch_add_sparse st.store dat addIds attrs append with
      | .ok store' => { store := some store', trace := st.trace ++ [append], err := none }
      | .error e => { st with err := some e }

/-- Run the scan loop over the batch list; after the first batch the append
flag is always true (line 164). -/
def processBatches (inDs : Dataset) (layer cellAttr : String)
    (label : Option String) (rowIdx : List ℕ) (ps : List ℕ)
    (outIds featIds : List String) :
    List (List ℕ) → Bool → RunState → RunState
  | [], _, st => st
  | sel :: rest, append, st =>
    processBatches inDs layer cellAttr label rowIdx ps outIds featIds rest true
      (processBatch inDs layer cellAttr label rowIdx ps outIds featIds append sel st)

/-- `low_mem_add_data` (integration.py lines 67-164): resolve validity
indices, read the canonical identifiers from `Accession`, align the local
feature identifiers against them with a pandas label lookup, then stream the
valid columns in batches, remapping and appending each (the first batch
creates the file when `gen_out`). -/
def low_mem_add_data (inDs : Dataset) (layer featAttr cellAttr : String)
    (label : Option String) (validRa validCa : Option String) (rmv : Bool)
    (batchSize : ℕ) (genOut : Bool) (st : RunState) : RunState :=
  match st.err with
  | some _ => st
  | none =>
    match (do
      let rowIdx ← get_attr_index inDs validRa false
      let colIdx ← get_attr_index inDs validCa true
      let outIds ← lowMemOutIds inDs st.store genOut rmv rowIdx
      let featsRaw ← getRa inDs featAttr
      let featIds := stripIf rmv (select featsRaw rowIdx "")
      let ps ← locPositions featIds outIds
      pure (rowIdx, colIdx, outIds, featIds, ps) :
        Except IntError (List ℕ × List ℕ × List String × List String × List ℕ)) with
    | .error e => { st with err := some e }
    | .ok (rowIdx, colIdx, outIds, featIds, ps) =>
      processBatches inDs layer cellAttr label rowIdx ps outIds featIds
        (chunkList batchSize colIdx) (!genOut) st

/-- `low_mem_integrate` (integration.py lines 333-448): input checking, then
one `low_mem_add_data` pass per dataset — the source with `gen_out=True`,
each target appending. -/
def low_mem_integrate (src : Dataset) (tgt : PyParam Dataset)
    (layerS : String) (layerT : PyParam String) (featS : String)
    (featT : PyParam String) (cellS : String) (cellT : PyParam String)
    (labS : Option String) (labT : PyParam (Option String))
    (vraS : Option String) (vraT : PyParam (Option String))
    (vcaS : Option String) (vcaT : PyParam (Option String)) (rmv : Bool)
    (batchSize : ℕ) : RunState :=
  match normalizeTargets tgt layerT featT cellT labT vraT vcaT with
  | .error e => { store := none, trace := [], err := some e }
  | .ok specs =>
    let st1 := low_mem_add_data src layerS featS cellS labS vraS vcaS rmv
      batchSize true initState
    specs.foldl
      (fun st sp =>
        low_mem_add_data sp.ds sp.layer sp.featAttr sp.cellAttr sp.label
          sp.validRa sp.validCa rmv batchSize false st)
      st1

/-! ## Observation helpers used by the claims -/

/-- Sum of the coordinate values stored at (row `i`, column `j`) — the dense
reading of a scipy COO matrix. -/
def sumValsRC (es : List (ℕ × ℕ × ℚ)) (i j : ℕ) : ℚ :=
  ((es.filter (fun e => e.1 = i ∧ e.2.1 = j)).map (fun e => e.2.2)).sum

/-- The dense matrix a streaming output store holds. -/
def storeMatrix (st : OutStore) : List (List ℚ) :=
  (List.range st.nRows).map (fun i =>
    (List.range st.nCols).map (fun j => sumValsRC st.entries i j))

def exIsOk : Except IntError α → Bool
  | .ok _ => true
  | .error _ => false

def exGetD : Except IntError α → α → α
  | .ok a, _ => a
  | .error _, d => d

/-- Validity-selected row positions of a dataset (total projection). -/
def dsRowIdx (ds : Dataset) (vra : Option String) : List ℕ :=
  exGetD (get_attr_index ds vra false) []

/-- Validity-selected column positions of a dataset (total projection). -/
def dsColIdx (ds : Dataset) (vca : Option String) : List ℕ :=
  exGetD (get_attr_index ds vca true) []

/-- Validity-selected, version-stripped feature identifiers of a dataset
under a given feature attribute (total projection). -/
def dsFeatIds (ds : Dataset) (featAttr : String) (vra : Option String)
    (rmv : Bool) : List String :=
  stripIf rmv (select ((ds.ra featAttr).getD []) (dsRowIdx ds vra) "")

/-- Validity-selected cell identifiers of a dataset (total projection). -/
def dsCellIds (ds : Dataset) (cellAttr : String) (vca : Option String) :
    List String :=
  select ((ds.ca cellAttr).getD []) (dsColIdx ds vca) ""

/-- Store invariant: every stored coordinate entry lies inside the declared
column count. -/
def StoreWF (st : OutStore) : Prop :=
  ∀ e ∈ st.entries, e.2.1 < st.nCols

instance (st : OutStore) : Decidable (StoreWF st) :=
  inferInstanceAs (Decidable (∀ e ∈ st.entries, e.2.1 < st.nCols))

def emptyDataset : Dataset :=
  ⟨"", 0, 0, fun _ => none, fun _ => none, fun _ => none, fun _ => none,
    fun _ _ _ => 0⟩

def dfltSpec : TargetSpec := ⟨emptyDataset, "", "", "", none, none, none⟩

/-- Validity-selected column positions of a target spec. -/
def tgtCols (sp : TargetSpec) : List ℕ := dsColIdx sp.ds sp.validCa

/-- Validity-selected cell identifiers of a target spec. -/
def tgtCells (sp : TargetSpec) : List String :=
  dsCellIds sp.ds sp.cellAttr sp.validCa

/-- Validity-selected, version-stripped feature identifiers of a target spec. -/
def tgtFeats (rmv : Bool) (sp : TargetSpec) : List String :=
  dsFeatIds sp.ds sp.featAttr sp.validRa rmv

/-- All per-target attribute reads of a target spec succeed, its alignment
lookup against the store's canonical identifiers succeeds, its row count
matches the store schema, and its modality label presence matches the store. -/
def specOK (rmv : Bool) (accession : List String) (nRows : ℕ) (modSome : Bool)
    (sp : TargetSpec) : Prop :=
  exIsOk (get_attr_index sp.ds sp.validRa false) = true ∧
  exIsOk (get_attr_index sp.ds sp.validCa true) = true ∧
  (sp.ds.ra sp.featAttr).isSome = true ∧
  (sp.ds.ca sp.cellAttr).isSome = true ∧
  exIsOk (locPositions (tgtFeats rmv sp) (stripIf rmv accession)) = true ∧
  (dsRowIdx sp.ds sp.validRa).length = nRows ∧
  sp.label.isSome = modSome

/-- The target's local feature identifiers are a permutation of the store's
canonical identifiers. -/
def specAligned (rmv : Bool) (accession : List String) (sp : TargetSpec) : Prop :=
  (tgtFeats rmv sp).Perm (stripIf rmv accession)

/-- All attribute reads of a spec succeed (enough for the full-memory path). -/
def specReads (sp : TargetSpec) : Prop :=
  exIsOk (get_attr_index sp.ds sp.validRa false) = true ∧
  exIsOk (get_attr_index sp.ds sp.validCa true) = true ∧
  (sp.ds.ra sp.featAttr).isSome = true ∧
  (sp.ds.ca sp.cellAttr).isSome = true

/-- The pandas frame `high_mem_get_data` produces for a spec, expressed with
total projections. -/
def specFrame (rmv : Bool) (sp : TargetSpec) : PDFrame :=
  { index := tgtCells sp
    columns := tgtFeats rmv sp
    val := fun j f => (firstIdx? f (tgtFeats rmv sp)).map
      (fun i => sp.ds.layer sp.layer ((dsRowIdx sp.ds sp.validRa).getD i 0)
        ((tgtCols sp).getD j 0)) }

/-- Reference semantics of an aligned target value: output row `i` reads the
target's local row whose identifier matches canonical identifier `i`. -/
def alignedVal (rmv : Bool) (accession : List String) (sp : TargetSpec)
    (i j : ℕ) : ℚ :=
  sp.ds.layer sp.layer
    ((dsRowIdx sp.ds sp.validRa).getD
      (idxOf ((stripIf rmv accession).getD i "") (tgtFeats rmv sp)) 0)
    ((tgtCols sp).getD j 0)

/-- The concatenated per-target modality blocks. -/
def modBlocks (specs : List TargetSpec) : List (Option String) :=
  (specs.map (fun sp =>
    List.replicate (tgtCols sp).length (some (sp.label.getD "")))).flatten

/-- A scalar-or-list argument has an acceptable shape for `n` targets. -/
def conformShape {α : Type} (p : PyParam α) (n : ℕ) : Prop :=
  match p with
  | .scalar _ => True
  | .list xs => xs.length = n

instance {α : Type} (p : PyParam α) (n : ℕ) : Decidable (conformShape p n) :=
  match p with
  | .scalar _ => isTrue trivial
  | .list xs => inferInstanceAs (Decidable (xs.length = n))

instance (rmv : Bool) (accession : List String) (nRows : ℕ) (modSome : Bool)
    (sp : TargetSpec) : Decidable (specOK rmv accession nRows modSome sp) :=
  inferInstanceAs (Decidable (_ = true ∧ _ = true ∧ _ = true ∧ _ = true ∧
    _ = true ∧ _ = nRows ∧ _ = modSome))

instance (rmv : Bool) (accession : List String) (sp : TargetSpec) :
    Decidable (specAligned rmv accession sp) :=
  inferInstanceAs (Decidable (List.Perm _ _))

instance (sp : TargetSpec) : Decidable (specReads sp) :=
  inferInstanceAs (Decidable (_ = true ∧ _ = true ∧ _ = true ∧ _ = true))

/-! ## Concrete datasets for witnesses and counterexamples -/

/-- A two-feature, two-sample source dataset. -/
def wSrc : Dataset :=
  { name := "src.loom", nRows := 2, nCols := 2
    ra := fun a => if a = "Accession" then some ["A", "B"] else none
    ca := fun a => if a = "CellID" then some ["s1", "s2"] else none
    validRa := fun _ => none
    validCa := fun _ => none
    layer := fun _ i j =>
      if i = 0 && j = 0 then 1 else if i = 1 && j = 0 then 2
      else if i = 0 && j = 1 then 3 else if i = 1 && j = 1 then 4 else 0 }

/-- A target with the same two features in reversed order, one sample. -/
def wTgt : Dataset :=
  { name := "tgt.loom", nRows := 2, nCols := 1
    ra := fun a => if a = "Accession" then some ["B", "A"] else none
    ca := fun a => if a = "CellID" then some ["t1"] else none
    validRa := fun _ => none
    validCa := fun _ => none
    layer := fun _ i j =>
      if i = 0 && j = 0 then 5 else if i = 1 && j = 0 then 7 else 0 }

/-- A target with an extra feature `X` absent from the source. -/
def wTgtX : Dataset :=
  { name := "tgtx.loom", nRows := 3, nCols := 1
    ra := fun a => if a = "Accession" then some ["B", "A", "X"] else none
    ca := fun a => if a = "CellID" then some ["t1"] else none
    validRa := fun _ => none
    validCa := fun _ => none
    layer := fun _ i j =>
      if i = 0 && j = 0 then 5 else if i = 1 && j = 0 then 7
      else if i = 2 && j = 0 then 9 else 0 }

/-- A target holding a strict subset of the source's features. -/
def wTgtSub : Dataset :=
  { name := "tgts.loom", nRows := 1, nCols := 1
    ra := fun a => if a = "Accession" then some ["A"] else none
    ca := fun a => if a = "CellID" then some ["t1"] else none
    validRa := fun _ => none
    validCa := fun _ => none
    layer := fun _ i j => if i = 0 && j = 0 then 7 else 0 }

/-- A dataset whose `Accession` and `Gene` row attributes disagree in order. -/
def wGene : Dataset :=
  { name := "gene.loom", nRows := 2, nCols := 2
    ra := fun a =>
      if a = "Accession" then some ["A", "B"]
      else if a = "Gene" then some ["B", "A"] else none
    ca := fun a => if a = "CellID" then some ["g1", "g2"] else none
    validRa := fun _ => none
    validCa := fun _ => none
    layer := fun _ i j =>
      if i = 0 && j = 0 then 11 else if i = 1 && j = 0 then 12
      else if i = 0 && j = 1 then 13 else if i = 1 && j = 1 then 14 else 0 }

/-- A small pre-existing output store with canonical identifiers `[A, B]`. -/
def wStore : OutStore :=
  { nRows := 2, nCols := 1, entries := [(0, 0, 21), (1, 0, 22)]
    accession := ["A", "B"], cellId := ["p1"], originalFile := ["p.loom"]
    modality := some [some "L0"] }

def wSrcSp : TargetSpec :=
  ⟨wSrc, "", "Accession", "CellID", some "L1", none, none⟩

def wTgtSp : TargetSpec :=
  ⟨wTgt, "", "Accession", "CellID", some "L2", none, none⟩

/-- Concatenation of optional modality attribute arrays (used when both are
present or both absent). -/
def mergeMod : Option (List (Option String)) → Option (List (Option String)) →
    Option (List (Option String))
  | some a, some b => some (a ++ b)
  | _, _ => none

/-! ## Groundwork lemmas: indices and positions -/

theorem idxOf_lt_length {x : String} {xs : List String} (h : x ∈ xs) :
    idxOf x xs < xs.length := by
  induction xs with
  | nil => simp at h
  | cons y ys ih =>
    rw [List.mem_cons] at h
    by_cases hy : y = x
    · simp [idxOf, hy]
    · have hx : x ∈ ys := h.resolve_left (fun he => hy he.symm)
      simp only [idxOf, if_neg hy, List.length_cons]
      exact Nat.succ_lt_succ (ih hx)

theorem getD_idxOf {x : String} {xs : List String} (h : x ∈ xs) (d : String) :
    xs.getD (idxOf x xs) d = x := by
  induction xs with
  | nil => simp at h
  | cons y ys ih =>
    rw [List.mem_cons] at h
    by_cases hy : y = x
    · simp [idxOf, hy]
    · have hx : x ∈ ys := h.resolve_left (fun he => hy he.symm)
      simp only [idxOf, if_neg hy, List.getD_cons_succ]
      exact ih hx

theorem idxOf_getD {xs : List String} (hn : xs.Nodup) {i : ℕ}
    (hi : i < xs.length) (d : String) : idxOf (xs.getD i d) xs = i := by
  induction xs generalizing i with
  | nil => simp at hi
  | cons y ys ih =>
    rcases List.nodup_cons.mp hn with ⟨hy, hn2⟩
    cases i with
    | zero => simp [idxOf]
    | succ n =>
      have hn3 : n < ys.length := by simpa using hi
      have hmem : ys.getD n d ∈ ys := by
        rw [List.getD_eq_getElem ys d hn3]
        exact List.getElem_mem hn3
      have hne : ¬ y = ys.getD n d := fun he => hy (he ▸ hmem)
      simp only [List.getD_cons_succ, idxOf, if_neg hne]
      rw [ih hn2 hn3]

theorem positionsOf_eq_nil {x : String} {xs : List String} (h : x ∉ xs) :
    positionsOf x xs = [] := by
  induction xs with
  | nil => rfl
  | cons y ys ih =>
    simp only [List.mem_cons, not_or] at h
    have hne : ¬ y = x := fun he => h.1 he.symm
    simp [positionsOf, hne, ih h.2]

theorem positionsOf_nodup {x : String} {xs : List String} (hn : xs.Nodup)
    (h : x ∈ xs) : positionsOf x xs = [idxOf x xs] := by
  induction xs with
  | nil => simp at h
  | cons y ys ih =>
    rcases List.nodup_cons.mp hn with ⟨hy, hn2⟩
    by_cases hyx : y = x
    · subst hyx
      simp [positionsOf, idxOf, positionsOf_eq_nil hy]
    · have hx : x ∈ ys := (List.mem_cons.mp h).resolve_left (fun he => hyx he.symm)
      simp [positionsOf, idxOf, hyx, ih hn2 hx]

theorem length_select (xs : List α) (idx : List ℕ) (d : α) :
    (select xs idx d).length = idx.length := by
  simp [select]

theorem getD_select (xs : List α) {idx : List ℕ} {k : ℕ} (hk : k < idx.length)
    (d : α) : (select xs idx d).getD k d = xs.getD (idx.getD k 0) d := by
  have h2 : k < (select xs idx d).length := by simpa [length_select]
  rw [List.getD_eq_getElem _ _ h2, List.getD_eq_getElem _ _ hk]
  simp [select]

theorem length_stripIf (b : Bool) (xs : List String) :
    (stripIf b xs).length = xs.length := by
  cases b <;> simp [stripIf]

theorem select_append (xs : List α) (i1 i2 : List ℕ) (d : α) :
    select xs (i1 ++ i2) d = select xs i1 d ++ select xs i2 d := by
  simp [select]

theorem chunkListF_fuel (bs : ℕ) (f1 : ℕ) :
    ∀ (f2 : ℕ) (xs : List α), xs.length ≤ f1 → xs.length ≤ f2 →
      chunkListF bs f1 xs = chunkListF bs f2 xs := by
  induction f1 with
  | zero =>
    intro f2 xs h1 _
    have hxs : xs = [] := List.eq_nil_of_length_eq_zero (by omega)
    subst hxs
    cases f2 <;> rfl
  | succ g1 ih =>
    intro f2 xs h1 h2
    match xs with
    | [] => cases f2 <;> rfl
    | x :: rest =>
      match f2 with
      | 0 => simp at h2
      | g2 + 1 =>
        show _ :: chunkListF bs g1 ((x :: rest).drop (max 1 bs)) =
          _ :: chunkListF bs g2 ((x :: rest).drop (max 1 bs))
        have hm : 1 ≤ max 1 bs := le_max_left _ _
        have hdl : ((x :: rest).drop (max 1 bs)).length ≤ rest.length := by
          simp only [List.length_drop, List.length_cons]
          omega
        simp only [List.length_cons] at h1 h2
        rw [ih g2 ((x :: rest).drop (max 1 bs)) (by omega) (by omega)]

theorem chunkList_ne_nil (bs : ℕ) (x : α) (rest : List α) :
    chunkList bs (x :: rest) =
      (x :: rest).take (max 1 bs) :: chunkList bs ((x :: rest).drop (max 1 bs)) := by
  show _ :: chunkListF bs rest.length ((x :: rest).drop (max 1 bs)) = _
  rw [chunkListF_fuel bs rest.length ((x :: rest).drop (max 1 bs)).length
    ((x :: rest).drop (max 1 bs))
    (by
      have hm : 1 ≤ max 1 bs := le_max_left _ _
      simp only [List.length_drop, List.length_cons]
      omega)
    (le_refl _)]
  rfl

theorem chunkList_flatten (bs : ℕ) (xs : List α) :
    (chunkList bs xs).flatten = xs := by
  match xs with
  | [] => rfl
  | x :: rest =>
    rw [chunkList_ne_nil]
    simp only [List.flatten_cons]
    rw [chunkList_flatten bs ((x :: rest).drop (max 1 bs))]
    exact List.take_append_drop _ _
termination_by xs.length
decreasing_by
  have h2 : 1 ≤ max 1 bs := le_max_left _ _
  simp only [List.length_drop, List.length_cons]
  omega

/-! ## Groundwork lemmas: coordinate sums -/

theorem sumValsRC_nil (i j : ℕ) : sumValsRC [] i j = 0 := rfl

theorem sumValsRC_append (as bs : List (ℕ × ℕ × ℚ)) (i j : ℕ) :
    sumValsRC (as ++ bs) i j = sumValsRC as i j + sumValsRC bs i j := by
  simp [sumValsRC, List.filter_append]

theorem sumValsRC_flatMap (xs : List ℕ) (g : ℕ → List (ℕ × ℕ × ℚ)) (i j : ℕ) :
    sumValsRC (xs.flatMap g) i j = (xs.map (fun r => sumValsRC (g r) i j)).sum := by
  induction xs with
  | nil => simp [sumValsRC]
  | cons x xs ih => simp [List.flatMap_cons, sumValsRC_append, ih]

theorem sum_map_range_single (n i : ℕ) (f : ℕ → ℚ) (hi : i < n)
    (h0 : ∀ r, r < n → r ≠ i → f r = 0) :
    ((List.range n).map f).sum = f i := by
  induction n with
  | zero => omega
  | succ m ih =>
    rw [List.range_succ]
    simp only [List.map_append, List.sum_append, List.map_cons, List.map_nil,
      List.sum_cons, List.sum_nil]
    by_cases him : i = m
    · subst him
      have hz : ((List.range i).map f).sum = 0 := by
        apply List.sum_eq_zero
        intro q hq
        rcases List.mem_map.mp hq with ⟨r, hr, hrq⟩
        rw [← hrq]
        exact h0 r (by
          have := List.mem_range.mp hr
          omega) (by
          have := List.mem_range.mp hr
          omega)
      simp [hz]
    · have hi2 : i < m := by omega
      rw [ih hi2 (fun r hr hne => h0 r (by omega) hne)]
      have hfm : f m = 0 := h0 m (by omega) (fun he => him he.symm)
      simp [hfm]

/-! ## Alignment lookup and dictionary lemmas -/

theorem locPositions_ok {featIds outIds : List String}
    (hsub : ∀ x ∈ outIds, x ∈ featIds) :
    locPositions featIds outIds =
      .ok (outIds.flatMap (fun x => positionsOf x featIds)) := by
  unfold locPositions
  have hf : outIds.filter (fun x => ¬ featIds.contains x) = [] := by
    rw [List.filter_eq_nil_iff]
    intro x hx
    simp [hsub x hx]
  rw [hf]
  rfl

theorem locPositions_nodup {featIds outIds : List String} (hn : featIds.Nodup)
    (hsub : ∀ x ∈ outIds, x ∈ featIds) :
    locPositions featIds outIds =
      .ok (outIds.map (fun x => idxOf x featIds)) := by
  rw [locPositions_ok hsub]
  congr 1
  induction outIds with
  | nil => rfl
  | cons x xs ih =>
    have hx : x ∈ featIds := hsub x (List.mem_cons_self x xs)
    rw [List.flatMap_cons, List.map_cons, positionsOf_nodup hn hx,
      ih (fun y hy => hsub y (List.mem_cons_of_mem x hy))]
    rfl

theorem locPositions_error {featIds outIds : List String} {x : String}
    (hx : x ∈ outIds) (hnx : x ∉ featIds) :
    locPositions featIds outIds =
      .error (.keyError (outIds.filter (fun y => ¬ featIds.contains y))) := by
  unfold locPositions
  have hmemf : x ∈ outIds.filter (fun y => ¬ featIds.contains y) := by
    rw [List.mem_filter]
    refine ⟨hx, ?_⟩
    simp [hnx]
  have hne : (outIds.filter (fun y => ¬ featIds.contains y)).isEmpty ≠ true := by
    intro he
    exact absurd (List.isEmpty_iff.mp he ▸ hmemf) (List.not_mem_nil x)
  rw [if_neg hne]

theorem filter_enumFrom_nil {ps : List ℕ} {r : ℕ} (h : r ∉ ps) (n : ℕ) :
    (List.enumFrom n ps).filter (fun kp => kp.2 = r) = [] := by
  induction ps generalizing n with
  | nil => rfl
  | cons p ps ih =>
    simp only [List.mem_cons, not_or] at h
    show ((n, p) :: List.enumFrom (n + 1) ps).filter _ = []
    rw [List.filter_cons_of_neg (by
      simp only [decide_eq_true_eq]
      exact fun he => h.1 he.symm), ih h.2]

theorem filter_enumFrom_single {ps : List ℕ} (hn : ps.Nodup) {k r : ℕ}
    (hk : k < ps.length) (hr : ps.getD k 0 = r) (n : ℕ) :
    (List.enumFrom n ps).filter (fun kp => kp.2 = r) = [(n + k, r)] := by
  induction ps generalizing n k with
  | nil => simp at hk
  | cons p ps ih =>
    rcases List.nodup_cons.mp hn with ⟨hp, hn2⟩
    cases k with
    | zero =>
      simp only [List.getD_cons_zero] at hr
      subst hr
      show ((n, p) :: List.enumFrom (n + 1) ps).filter _ = _
      rw [List.filter_cons_of_pos (by simp), filter_enumFrom_nil hp (n + 1)]
      simp
    | succ m =>
      have hm : m < ps.length := by simpa using hk
      simp only [List.getD_cons_succ] at hr
      have hmem : r ∈ ps := by
        rw [← hr, List.getD_eq_getElem _ _ hm]
        exact List.getElem_mem hm
      have hne : ¬ p = r := fun he => hp (he ▸ hmem)
      show ((n, p) :: List.enumFrom (n + 1) ps).filter _ = _
      rw [List.filter_cons_of_neg (by simp [hne]), ih hn2 hm hr (n + 1)]
      have harith : n + 1 + m = n + (m + 1) := by omega
      rw [harith]

theorem featDictFn_eq {ps : List ℕ} (hn : ps.Nodup) {k r : ℕ}
    (hk : k < ps.length) (hr : ps.getD k 0 = r) : featDictFn ps r = some k := by
  unfold featDictFn
  rw [show List.enum ps = List.enumFrom 0 ps from rfl,
    filter_enumFrom_single hn hk hr 0]
  simp

theorem featDictFn_not_mem {ps : List ℕ} {r : ℕ} (h : r ∉ ps) :
    featDictFn ps r = none := by
  unfold featDictFn
  rw [show List.enum ps = List.enumFrom 0 ps from rfl, filter_enumFrom_nil h 0]
  rfl

theorem replaceFn_eq {ps : List ℕ} (hn : ps.Nodup) {k r : ℕ}
    (hk : k < ps.length) (hr : ps.getD k 0 = r) : replaceFn ps r = k := by
  simp [replaceFn, featDictFn_eq hn hk hr]

theorem replaceFn_not_mem {ps : List ℕ} {r : ℕ} (h : r ∉ ps) :
    replaceFn ps r = r := by
  simp [replaceFn, featDictFn_not_mem h]

/-- The dict built from a unique label index is injective, hence has no
duplicate keys. -/
theorem ps_nodup {featIds outIds : List String} (_hnf : featIds.Nodup)
    (hno : outIds.Nodup) (hsub : ∀ x ∈ outIds, x ∈ featIds) :
    (outIds.map (fun x => idxOf x featIds)).Nodup := by
  refine List.Nodup.map_on ?_ hno
  intro x hx y hy hxy
  have h1 : featIds.getD (idxOf x featIds) "" = x := getD_idxOf (hsub x hx) ""
  have h2 : featIds.getD (idxOf y featIds) "" = y := getD_idxOf (hsub y hy) ""
  rw [← h1, ← h2, hxy]

/-- The central dict characterization: with unique local and canonical
identifiers, row `r` is sent to the position of its identifier within the
canonical order. -/
theorem dict_maps {featIds outIds : List String} (hnf : featIds.Nodup)
    (hno : outIds.Nodup) (hsub : ∀ x ∈ outIds, x ∈ featIds) {r : ℕ}
    (hr : r < featIds.length) (hmem : featIds.getD r "" ∈ outIds) :
    replaceFn (outIds.map (fun x => idxOf x featIds)) r
      = idxOf (featIds.getD r "") outIds := by
  have hk : idxOf (featIds.getD r "") outIds < outIds.length :=
    idxOf_lt_length hmem
  have hkm : idxOf (featIds.getD r "") outIds <
      (outIds.map (fun x => idxOf x featIds)).length := by
    simpa using hk
  have hgetD : (outIds.map (fun x => idxOf x featIds)).getD
      (idxOf (featIds.getD r "") outIds) 0 = r := by
    rw [List.getD_eq_getElem _ _ hkm]
    simp only [List.getElem_map]
    have hout : outIds[idxOf (featIds.getD r "") outIds] = featIds.getD r "" := by
      rw [← List.getD_eq_getElem _ "" hk]
      exact getD_idxOf hmem ""
    rw [hout]
    exact idxOf_getD hnf hr ""
  exact replaceFn_eq (ps_nodup hnf hno hsub) hkm hgetD

/-! ## Sparse slice value semantics -/

theorem sumValsRC_cons (e : ℕ × ℕ × ℚ) (es : List (ℕ × ℕ × ℚ)) (i j : ℕ) :
    sumValsRC (e :: es) i j =
      (if e.1 = i ∧ e.2.1 = j then e.2.2 else 0) + sumValsRC es i j := by
  by_cases h : e.1 = i ∧ e.2.1 = j
  · simp [sumValsRC, List.filter_cons, h]
  · simp [sumValsRC, List.filter_cons, h]

theorem map_flatMap_comm (f : β → γ) (g : α → List β) (xs : List α) :
    (xs.flatMap g).map f = xs.flatMap (fun x => (g x).map f) := by
  induction xs with
  | nil => rfl
  | cons x xs ih => simp [List.flatMap_cons, ih]

theorem sumValsRC_row_not_mem (σ : ℕ → ℕ) (r : ℕ) (vals : ℕ → ℚ)
    (cs : List ℕ) {j : ℕ} (hj : j ∉ cs) (i : ℕ) :
    sumValsRC ((cs.filterMap (fun c =>
        if vals c = 0 then none else some (r, c, vals c))).map
      (fun e => (σ e.1, e.2.1, e.2.2))) i j = 0 := by
  induction cs with
  | nil => rfl
  | cons c cs ih =>
    simp only [List.mem_cons, not_or] at hj
    by_cases hv : vals c = 0
    · have hifp : (if vals c = 0 then none else some (r, c, vals c)) = none :=
        if_pos hv
      simp only [List.filterMap_cons, hifp]
      exact ih hj.2
    · have hifn : (if vals c = 0 then none else some (r, c, vals c)) =
          some (r, c, vals c) := if_neg hv
      simp only [List.filterMap_cons, hifn, List.map_cons]
      rw [sumValsRC_cons]
      have hne : ¬ ((σ r, c, vals c).1 = i ∧ (σ r, c, vals c).2.1 = j) := by
        intro hAnd
        exact hj.1 hAnd.2.symm
      rw [if_neg hne, ih hj.2]
      simp

theorem sumValsRC_row (σ : ℕ → ℕ) (r : ℕ) (vals : ℕ → ℚ) (cs : List ℕ)
    (hnd : cs.Nodup) {j : ℕ} (hj : j ∈ cs) (i : ℕ) :
    sumValsRC ((cs.filterMap (fun c =>
        if vals c = 0 then none else some (r, c, vals c))).map
      (fun e => (σ e.1, e.2.1, e.2.2))) i j =
      if σ r = i then vals j else 0 := by
  induction cs with
  | nil => simp at hj
  | cons c cs ih =>
    rcases List.nodup_cons.mp hnd with ⟨hc, hnd2⟩
    by_cases hcj : c = j
    · subst hcj
      by_cases hv : vals c = 0
      · have hifp : (if vals c = 0 then none else some (r, c, vals c)) = none :=
          if_pos hv
        simp only [List.filterMap_cons, hifp]
        rw [sumValsRC_row_not_mem σ r vals cs hc i, hv]
        simp
      · have hifn : (if vals c = 0 then none else some (r, c, vals c)) =
            some (r, c, vals c) := if_neg hv
        simp only [List.filterMap_cons, hifn, List.map_cons]
        rw [sumValsRC_cons, sumValsRC_row_not_mem σ r vals cs hc i]
        by_cases hσ : σ r = i
        · simp [hσ]
        · simp [hσ]
    · have hj2 : j ∈ cs := (List.mem_cons.mp hj).resolve_left (fun he => hcj he.symm)
      by_cases hv : vals c = 0
      · have hifp : (if vals c = 0 then none else some (r, c, vals c)) = none :=
          if_pos hv
        simp only [List.filterMap_cons, hifp]
        exact ih hnd2 hj2
      · have hifn : (if vals c = 0 then none else some (r, c, vals c)) =
            some (r, c, vals c) := if_neg hv
        simp only [List.filterMap_cons, hifn, List.map_cons]
        rw [sumValsRC_cons]
        have hne : ¬ ((σ r, c, vals c).1 = i ∧ (σ r, c, vals c).2.1 = j) := by
          intro hAnd
          exact hcj hAnd.2
        rw [if_neg hne, ih hnd2 hj2]
        simp

/-- Dense reading of a row-transformed sparse slice: when exactly one local
row `r0` is sent to output row `i`, the (i, j) cell is the layer value at
`(rows r0, cols j)`. -/
theorem sumValsRC_remap_slice (ds : Dataset) (layer : String) (σ : ℕ → ℕ)
    (rows cols : List ℕ) {i j r0 : ℕ} (hj : j < cols.length)
    (hr0 : r0 < rows.length)
    (hiff : ∀ r, r < rows.length → (σ r = i ↔ r = r0)) :
    sumValsRC ((sparseSlice ds layer rows cols).entries.map
      (fun e => (σ e.1, e.2.1, e.2.2))) i j
      = ds.layer layer (rows.getD r0 0) (cols.getD j 0) := by
  unfold sparseSlice
  rw [map_flatMap_comm, sumValsRC_flatMap]
  have hstep : ∀ r ∈ List.range rows.length,
      sumValsRC (((List.range cols.length).filterMap (fun c =>
          if ds.layer layer (rows.getD r 0) (cols.getD c 0) = 0 then none
          else some (r, c, ds.layer layer (rows.getD r 0) (cols.getD c 0)))).map
        (fun e => (σ e.1, e.2.1, e.2.2))) i j =
      (if σ r = i then ds.layer layer (rows.getD r 0) (cols.getD j 0) else 0) := by
    intro r _
    exact sumValsRC_row σ r
      (fun c => ds.layer layer (rows.getD r 0) (cols.getD c 0))
      (List.range cols.length) (List.nodup_range _) (List.mem_range.mpr hj) i
  rw [List.map_congr_left hstep]
  rw [sum_map_range_single rows.length r0 _ hr0]
  · rw [if_pos ((hiff r0 hr0).mpr rfl)]
  · intro r hr hne
    rw [if_neg (fun hσ => hne ((hiff r hr).mp hσ))]

/-- Dense reading of an untransformed sparse slice. -/
theorem sumValsRC_slice (ds : Dataset) (layer : String) (rows cols : List ℕ)
    {i j : ℕ} (hi : i < rows.length) (hj : j < cols.length) :
    sumValsRC (sparseSlice ds layer rows cols).entries i j
      = ds.layer layer (rows.getD i 0) (cols.getD j 0) := by
  have hid : (sparseSlice ds layer rows cols).entries.map
      (fun e => (id e.1, e.2.1, e.2.2)) =
      (sparseSlice ds layer rows cols).entries := by
    have : (fun (e : ℕ × ℕ × ℚ) => (id e.1, e.2.1, e.2.2)) = fun e => e := by
      funext e
      rfl
    rw [this, List.map_id']
  rw [← hid]
  exact @sumValsRC_remap_slice ds layer id rows cols i j i hj hi
    (fun r _ => by simp)

/-- Dense reading of a row-transformed sparse slice without any injectivity
assumption: a sum over the local rows sent to output row `i`. -/
theorem sumValsRC_remap_slice_sum (ds : Dataset) (layer : String) (σ : ℕ → ℕ)
    (rows cols : List ℕ) {i j : ℕ} (hj : j < cols.length) :
    sumValsRC ((sparseSlice ds layer rows cols).entries.map
      (fun e => (σ e.1, e.2.1, e.2.2))) i j
      = ((List.range rows.length).map (fun r =>
          if σ r = i then ds.layer layer (rows.getD r 0) (cols.getD j 0)
          else 0)).sum := by
  unfold sparseSlice
  rw [map_flatMap_comm, sumValsRC_flatMap]
  congr 1
  refine List.map_congr_left ?_
  intro r _
  exact sumValsRC_row σ r
    (fun c => ds.layer layer (rows.getD r 0) (cols.getD c 0))
    (List.range cols.length) (List.nodup_range _) (List.mem_range.mpr hj) i

/-! ## Output store lemmas -/

theorem sumValsRC_eq_zero_of_cols {es : List (ℕ × ℕ × ℚ)} {j : ℕ}
    (h : ∀ e ∈ es, e.2.1 ≠ j) (i : ℕ) : sumValsRC es i j = 0 := by
  induction es with
  | nil => rfl
  | cons e es ih =>
    rw [sumValsRC_cons,
      if_neg (fun hand => h e (List.mem_cons_self e es) hand.2),
      ih (fun x hx => h x (List.mem_cons_of_mem _ hx))]
    simp

theorem sumValsRC_shift (es : List (ℕ × ℕ × ℚ)) (n : ℕ) {j : ℕ} (hj : n ≤ j)
    (i : ℕ) :
    sumValsRC (es.map (fun e => (e.1, e.2.1 + n, e.2.2))) i j =
      sumValsRC es i (j - n) := by
  induction es with
  | nil => rfl
  | cons e es ih =>
    rw [List.map_cons, sumValsRC_cons, sumValsRC_cons, ih]
    congr 1
    by_cases h1 : e.1 = i ∧ e.2.1 + n = j
    · rw [if_pos h1, if_pos ⟨h1.1, by omega⟩]
    · rw [if_neg h1, if_neg (fun h2 => h1 ⟨h2.1, by omega⟩)]

/-- Values after appending a shifted chunk: old columns unchanged, new
columns read from the chunk. -/
theorem sumValsRC_append_region (st : OutStore) (ch : SparseChunk)
    (hwf : StoreWF st) (i j : ℕ) :
    sumValsRC (st.entries ++
      ch.entries.map (fun e => (e.1, e.2.1 + st.nCols, e.2.2))) i j =
      if j < st.nCols then sumValsRC st.entries i j
      else sumValsRC ch.entries i (j - st.nCols) := by
  rw [sumValsRC_append]
  by_cases hj : j < st.nCols
  · rw [if_pos hj]
    have hz : sumValsRC (ch.entries.map
        (fun e => (e.1, e.2.1 + st.nCols, e.2.2))) i j = 0 := by
      refine sumValsRC_eq_zero_of_cols ?_ i
      intro e he
      rcases List.mem_map.mp he with ⟨e0, _, heq⟩
      rw [← heq]
      simp only []
      omega
    rw [hz]
    simp
  · rw [if_neg hj]
    have hz : sumValsRC st.entries i j = 0 := by
      refine sumValsRC_eq_zero_of_cols ?_ i
      intro e he
      have := hwf e he
      omega
    rw [hz, sumValsRC_shift ch.entries st.nCols (by omega) i]
    simp

theorem chunk_cols_lt_slice (ds : Dataset) (layer : String)
    (rows cols : List ℕ) :
    ∀ e ∈ (sparseSlice ds layer rows cols).entries, e.2.1 < cols.length := by
  intro e he
  unfold sparseSlice at he
  simp only [] at he
  rcases List.mem_flatMap.mp he with ⟨r, _, hin⟩
  rcases List.mem_filterMap.mp hin with ⟨c, hc, hsome⟩
  by_cases hv : ds.layer layer (rows.getD r 0) (cols.getD c 0) = 0
  · rw [if_pos hv] at hsome
    cases hsome
  · rw [if_neg hv] at hsome
    cases hsome
    exact List.mem_range.mp hc

theorem chunk_cols_lt_remap (ps : List ℕ) (ch : SparseChunk)
    (h : ∀ e ∈ ch.entries, e.2.1 < ch.nCols) :
    ∀ e ∈ (remapChunk ps ch).entries, e.2.1 < (remapChunk ps ch).nCols := by
  intro e he
  unfold remapChunk at he
  simp only [] at he
  rcases List.mem_map.mp he with ⟨e0, he0, heq⟩
  rw [← heq]
  exact h e0 he0

theorem isSome_map_label (label : Option String) (f : String → List (Option String)) :
    (label.map f).isSome = label.isSome := by
  cases label <;> rfl

/-- Successful append call of the store writer, fully characterized. -/
theorem batch_add_sparse_append (st : OutStore) (ch : SparseChunk)
    (rowIds : List String) (attrs : ColAttrs) (hR : ch.nRows = st.nRows)
    (hm : st.modality.isSome = attrs.modality.isSome) :
    batch_add_sparse (some st) ch rowIds attrs true =
      .ok { st with
            nCols := st.nCols + ch.nCols
            entries := st.entries ++
              ch.entries.map (fun e => (e.1, e.2.1 + st.nCols, e.2.2))
            cellId := st.cellId ++ attrs.cellId
            originalFile := st.originalFile ++ attrs.originalFile
            modality := mergeMod st.modality attrs.modality } := by
  have hne : ¬ ch.nRows ≠ st.nRows := fun hne => hne hR
  cases hs : st.modality with
  | none =>
    cases ha : attrs.modality with
    | none => simp [batch_add_sparse, hne, hs, ha, mergeMod]
    | some b =>
      rw [hs, ha] at hm
      simp at hm
  | some m =>
    cases ha : attrs.modality with
    | none =>
      rw [hs, ha] at hm
      simp at hm
    | some b => simp [batch_add_sparse, hne, hs, ha, mergeMod]

theorem isSome_mergeMod (a b : Option (List (Option String)))
    (h : a.isSome = b.isSome) : (mergeMod a b).isSome = a.isSome := by
  cases a <;> cases b <;> simp [mergeMod] at h ⊢

/-- One successful appended batch of the scan loop, fully characterized. -/
theorem processBatch_append_ok (inDs : Dataset) (layer cellAttr : String)
    (label : Option String) (rowIdx ps : List ℕ) (outIds featIds : List String)
    (sel : List ℕ) (os : OutStore) (tr : List Bool) (caVals : List String)
    (hca : inDs.ca cellAttr = some caVals) (hR : rowIdx.length = os.nRows)
    (hm : os.modality.isSome = label.isSome) :
    processBatch inDs layer cellAttr label rowIdx ps outIds featIds true sel
      ⟨some os, tr, none⟩ =
    ⟨some { os with
            nCols := os.nCols + sel.length
            entries := os.entries ++
              (remapChunk ps (sparseSlice inDs layer rowIdx sel)).entries.map
                (fun e => (e.1, e.2.1 + os.nCols, e.2.2))
            cellId := os.cellId ++ select caVals sel ""
            originalFile := os.originalFile ++ List.replicate sel.length inDs.name
            modality := mergeMod os.modality
              (label.map (fun l => List.replicate sel.length (some l))) },
      tr ++ [true], none⟩ := by
  have hmod : os.modality.isSome =
      (label.map (fun l => List.replicate sel.length (some l))).isSome := by
    rw [isSome_map_label]
    exact hm
  have hRch : (remapChunk ps (sparseSlice inDs layer rowIdx sel)).nRows = os.nRows := by
    simpa [remapChunk, sparseSlice] using hR
  have hadd := batch_add_sparse_append os
    (remapChunk ps (sparseSlice inDs layer rowIdx sel)) outIds
    ⟨select caVals sel "", List.replicate sel.length inDs.name,
      label.map (fun l => List.replicate sel.length (some l))⟩ hRch hmod
  simp only [processBatch, hca, if_true, hadd]
  rfl

/-- Running the scan loop in append mode over a batch list: the trace grows
by one `true` per batch, the row schema and `Accession` stay fixed, the
column attributes grow by concatenation, and every new column reads the
remapped slice of its position, while old columns are untouched. -/
theorem processBatches_append_ok (inDs : Dataset) (layer cellAttr : String)
    (label : Option String) (rowIdx ps : List ℕ) (outIds featIds : List String)
    (batches : List (List ℕ)) (os : OutStore) (tr : List Bool)
    (caVals : List String) (hca : inDs.ca cellAttr = some caVals)
    (hR : rowIdx.length = os.nRows) (hwf : StoreWF os)
    (hm : os.modality.isSome = label.isSome) :
    ∃ os2 : OutStore,
      processBatches inDs layer cellAttr label rowIdx ps outIds featIds batches
        true ⟨some os, tr, none⟩ =
        ⟨some os2, tr ++ List.replicate batches.length true, none⟩ ∧
      os2.nRows = os.nRows ∧ os2.accession = os.accession ∧
      os2.nCols = os.nCols + batches.flatten.length ∧
      os2.cellId = os.cellId ++ select caVals batches.flatten "" ∧
      os2.originalFile = os.originalFile ++
        List.replicate batches.flatten.length inDs.name ∧
      os2.modality = mergeMod os.modality
        (label.map (fun l => List.replicate batches.flatten.length (some l))) ∧
      StoreWF os2 ∧
      (∀ i j, j < os.nCols → sumValsRC os2.entries i j = sumValsRC os.entries i j) ∧
      (∀ i j, j < batches.flatten.length →
        sumValsRC os2.entries i (os.nCols + j) =
          ((List.range rowIdx.length).map (fun r =>
            if replaceFn ps r = i
            then inDs.layer layer (rowIdx.getD r 0) (batches.flatten.getD j 0)
            else 0)).sum) := by
  induction batches generalizing os tr with
  | nil =>
    refine ⟨os, ?_, rfl, rfl, by simp, by simp [select], by simp, ?_, hwf,
      fun i j _ => rfl, fun i j hj => by simp at hj⟩
    · simp [processBatches]
    · cases hos : os.modality with
      | none =>
        cases hl : label with
        | none => simp [mergeMod]
        | some l =>
          rw [hos, hl] at hm
          simp at hm
      | some m =>
        cases hl : label with
        | none =>
          rw [hos, hl] at hm
          simp at hm
        | some l => simp [mergeMod]
  | cons sel rest ih =>
    set os1 : OutStore :=
      { os with
        nCols := os.nCols + sel.length
        entries := os.entries ++
          (remapChunk ps (sparseSlice inDs layer rowIdx sel)).entries.map
            (fun e => (e.1, e.2.1 + os.nCols, e.2.2))
        cellId := os.cellId ++ select caVals sel ""
        originalFile := os.originalFile ++ List.replicate sel.length inDs.name
        modality := mergeMod os.modality
          (label.map (fun l => List.replicate sel.length (some l))) } with hos1
    have hstep := processBatch_append_ok inDs layer cellAttr label rowIdx ps
      outIds featIds sel os tr caVals hca hR hm
    have hR1 : rowIdx.length = os1.nRows := hR
    have hwf1 : StoreWF os1 := by
      intro e he
      rw [hos1] at he ⊢
      simp only [] at he ⊢
      rcases List.mem_append.mp he with hold | hnew
      · have := hwf e hold
        omega
      · rcases List.mem_map.mp hnew with ⟨e0, he0, heq⟩
        have hc0 : e0.2.1 < sel.length := by
          have := chunk_cols_lt_remap ps (sparseSlice inDs layer rowIdx sel)
            (chunk_cols_lt_slice inDs layer rowIdx sel) e0 he0
          simpa [remapChunk, sparseSlice] using this
        rw [← heq]
        simp only []
        omega
    have hm1 : os1.modality.isSome = label.isSome := by
      rw [hos1]
      simp only []
      rw [isSome_mergeMod _ _ (by rw [isSome_map_label]; exact hm)]
      exact hm
    rcases ih os1 (tr ++ [true]) hR1 hwf1 hm1 with
      ⟨os2, hrun, hrows, hacc, hcols, hcell, hfile, hmod, hwf2, hpres, hvals⟩
    refine ⟨os2, ?_, ?_, ?_, ?_, ?_, ?_, ?_, hwf2, ?_, ?_⟩
    · show processBatches inDs layer cellAttr label rowIdx ps outIds featIds
        (sel :: rest) true ⟨some os, tr, none⟩ = _
      rw [processBatches, hstep, hrun, List.append_assoc]
      rfl
    · rw [hrows]
    · rw [hacc]
    · rw [hcols]
      show os.nCols + sel.length + rest.flatten.length =
        os.nCols + (sel ++ rest.flatten).length
      simp only [List.length_append]
      omega
    · rw [hcell]
      show (os.cellId ++ select caVals sel "") ++ select caVals rest.flatten "" =
        os.cellId ++ select caVals (sel ++ rest.flatten) ""
      rw [select_append, List.append_assoc]
    · rw [hfile]
      show (os.originalFile ++ List.replicate sel.length inDs.name) ++
          List.replicate rest.flatten.length inDs.name =
        os.originalFile ++
          List.replicate (sel ++ rest.flatten).length inDs.name
      rw [List.length_append, List.replicate_add, List.append_assoc]
    · rw [hmod]
      show mergeMod (mergeMod os.modality
          (label.map (fun l => List.replicate sel.length (some l))))
          (label.map (fun l => List.replicate rest.flatten.length (some l))) =
        mergeMod os.modality
          (label.map (fun l => List.replicate (sel ++ rest.flatten).length (some l)))
      cases hos : os.modality with
      | none =>
        cases hl : label with
        | none => simp [mergeMod]
        | some l =>
          rw [hos, hl] at hm
          simp at hm
      | some m =>
        cases hl : label with
        | none =>
          rw [hos, hl] at hm
          simp at hm
        | some l =>
          simp only [Option.map_some', mergeMod, List.length_append,
            List.replicate_add, List.append_assoc]
    · intro i j hj
      have hj1 : j < os1.nCols := by
        show j < os.nCols + sel.length
        omega
      rw [hpres i j hj1]
      show sumValsRC (os.entries ++
        (remapChunk ps (sparseSlice inDs layer rowIdx sel)).entries.map
          (fun e => (e.1, e.2.1 + os.nCols, e.2.2))) i j = _
      rw [sumValsRC_append_region os
        (remapChunk ps (sparseSlice inDs layer rowIdx sel)) hwf i j,
        if_pos hj]
    · intro i j hj
      simp only [List.flatten_cons, List.length_append] at hj
      by_cases hjs : j < sel.length
      · have hlt : os.nCols + j < os1.nCols := by
          show os.nCols + j < os.nCols + sel.length
          omega
        rw [hpres i (os.nCols + j) hlt]
        show sumValsRC (os.entries ++
          (remapChunk ps (sparseSlice inDs layer rowIdx sel)).entries.map
            (fun e => (e.1, e.2.1 + os.nCols, e.2.2))) i (os.nCols + j) = _
        rw [sumValsRC_append_region os
          (remapChunk ps (sparseSlice inDs layer rowIdx sel)) hwf i (os.nCols + j),
          if_neg (by omega)]
        have hsub : os.nCols + j - os.nCols = j := by omega
        rw [hsub]
        have hrm : (remapChunk ps (sparseSlice inDs layer rowIdx sel)).entries =
            (sparseSlice inDs layer rowIdx sel).entries.map
              (fun e => (replaceFn ps e.1, e.2.1, e.2.2)) := rfl
        rw [hrm, sumValsRC_remap_slice_sum inDs layer (replaceFn ps) rowIdx sel hjs]
        have hgd : sel.getD j 0 = ((sel :: rest).flatten).getD j 0 := by
          simp only [List.flatten_cons]
          rw [List.getD_append sel rest.flatten 0 j hjs]
        rw [hgd]
      · have hj2 : j - sel.length < rest.flatten.length := by omega
        have harith : os.nCols + j = os1.nCols + (j - sel.length) := by
          show os.nCols + j = os.nCols + sel.length + (j - sel.length)
          omega
        rw [harith, hvals i (j - sel.length) hj2]
        have hgd : rest.flatten.getD (j - sel.length) 0 =
            ((sel :: rest).flatten).getD j 0 := by
          simp only [List.flatten_cons]
          rw [List.getD_append_right sel rest.flatten 0 j (by omega)]
        rw [hgd]

theorem getD_take (l : List ℕ) (n j : ℕ) (hj : j < (l.take n).length) :
    (l.take n).getD j 0 = l.getD j 0 := by
  have hjl : j < l.length := by
    simp only [List.length_take] at hj
    omega
  rw [List.getD_eq_getElem _ _ hj, List.getD_eq_getElem _ _ hjl]
  exact List.getElem_take l

theorem getD_drop (l : List ℕ) (n j : ℕ) (hj : j < (l.drop n).length) :
    (l.drop n).getD j 0 = l.getD (n + j) 0 := by
  have hjl : n + j < l.length := by
    simp only [List.length_drop] at hj
    omega
  rw [List.getD_eq_getElem _ _ hj, List.getD_eq_getElem _ _ hjl]
  exact List.getElem_drop l

/-- The create call of the scan loop (first batch under `gen_out`): the slice
is written unremapped and the row attribute is set to the local feature
identifiers. -/
theorem processBatch_create_ok (inDs : Dataset) (layer cellAttr : String)
    (label : Option String) (rowIdx ps : List ℕ) (outIds featIds : List String)
    (sel : List ℕ) (sto : Option OutStore) (tr : List Bool)
    (caVals : List String) (hca : inDs.ca cellAttr = some caVals) :
    processBatch inDs layer cellAttr label rowIdx ps outIds featIds false sel
      ⟨sto, tr, none⟩ =
    ⟨some { nRows := rowIdx.length
            nCols := sel.length
            entries := (sparseSlice inDs layer rowIdx sel).entries
            accession := featIds
            cellId := select caVals sel ""
            originalFile := List.replicate sel.length inDs.name
            modality := label.map (fun l => List.replicate sel.length (some l)) },
      tr ++ [false], none⟩ := by
  simp only [processBatch, hca, batch_add_sparse, Bool.false_eq_true, if_false]
  rfl

theorem bind_ok_scf (a : α) (f : α → Except IntError β) :
    (Bind.bind (Except.ok a) f) = f a := rfl

theorem bind_pure_scf (a : α) (f : α → Except IntError β) :
    (Bind.bind (pure a) f) = f a := rfl

/-- One `low_mem_add_data` pass in append mode (a target dataset), fully
characterized. -/
theorem low_mem_add_data_append_ok (inDs : Dataset)
    (layer featAttr cellAttr : String) (label : Option String)
    (vra vca : Option String) (rmv : Bool) (bs : ℕ) (os : OutStore)
    (tr : List Bool) (rowIdx colIdx : List ℕ) (fr caVals : List String)
    (ps : List ℕ)
    (hvra : get_attr_index inDs vra false = .ok rowIdx)
    (hvca : get_attr_index inDs vca true = .ok colIdx)
    (hfr : inDs.ra featAttr = some fr)
    (hca : inDs.ca cellAttr = some caVals)
    (hloc : locPositions (stripIf rmv (select fr rowIdx ""))
      (stripIf rmv os.accession) = .ok ps)
    (hR : rowIdx.length = os.nRows) (hwf : StoreWF os)
    (hm : os.modality.isSome = label.isSome) :
    ∃ os2 : OutStore,
      low_mem_add_data inDs layer featAttr cellAttr label vra vca rmv bs false
        ⟨some os, tr, none⟩ =
        ⟨some os2, tr ++ List.replicate (chunkList bs colIdx).length true, none⟩ ∧
      os2.nRows = os.nRows ∧ os2.accession = os.accession ∧
      os2.nCols = os.nCols + colIdx.length ∧
      os2.cellId = os.cellId ++ select caVals colIdx "" ∧
      os2.originalFile = os.originalFile ++
        List.replicate colIdx.length inDs.name ∧
      os2.modality = mergeMod os.modality
        (label.map (fun l => List.replicate colIdx.length (some l))) ∧
      StoreWF os2 ∧
      (∀ i j, j < os.nCols → sumValsRC os2.entries i j = sumValsRC os.entries i j) ∧
      (∀ i j, j < colIdx.length →
        sumValsRC os2.entries i (os.nCols + j) =
          ((List.range rowIdx.length).map (fun r =>
            if replaceFn ps r = i
            then inDs.layer layer (rowIdx.getD r 0) (colIdx.getD j 0)
            else 0)).sum) := by
  have hred : low_mem_add_data inDs layer featAttr cellAttr label vra vca rmv
      bs false ⟨some os, tr, none⟩ =
      processBatches inDs layer cellAttr label rowIdx ps
        (stripIf rmv os.accession) (stripIf rmv (select fr rowIdx ""))
        (chunkList bs colIdx) true ⟨some os, tr, none⟩ := by
    simp only [low_mem_add_data, lowMemOutIds, getRa, hvra, hvca, hfr, hloc,
      Bool.false_eq_true, if_false, bind_ok_scf, bind_pure_scf]
    rfl
  rcases processBatches_append_ok inDs layer cellAttr label rowIdx ps
      (stripIf rmv os.accession) (stripIf rmv (select fr rowIdx ""))
      (chunkList bs colIdx) os tr caVals hca hR hwf hm with
    ⟨os2, hrun, hrows, hacc, hcols, hcell, hfile, hmod, hwf2, hpres, hvals⟩
  rw [chunkList_flatten] at hcols hcell hfile hmod hvals
  exact ⟨os2, hred.trans hrun, hrows, hacc, hcols, hcell, hfile, hmod, hwf2,
    hpres, hvals⟩

/-- One `low_mem_add_data` pass with `gen_out=True` (the source dataset):
the first batch creates the store with the local feature identifiers as
`Accession`; the remaining batches append through the self-alignment dict. -/
theorem low_mem_add_data_genout_ok (inDs : Dataset)
    (layer featAttr cellAttr : String) (label : Option String)
    (vra vca : Option String) (rmv : Bool) (bs : ℕ) (sto : Option OutStore)
    (tr : List Bool) (rowIdx colIdx : List ℕ) (fr acc caVals : List String)
    (ps : List ℕ)
    (hvra : get_attr_index inDs vra false = .ok rowIdx)
    (hvca : get_attr_index inDs vca true = .ok colIdx)
    (hfr : inDs.ra featAttr = some fr)
    (hacc : inDs.ra "Accession" = some acc)
    (hca : inDs.ca cellAttr = some caVals)
    (hloc : locPositions (stripIf rmv (select fr rowIdx ""))
      (stripIf rmv (select acc rowIdx "")) = .ok ps)
    (hcne : colIdx ≠ []) :
    ∃ (os2 : OutStore) (k : ℕ),
      low_mem_add_data inDs layer featAttr cellAttr label vra vca rmv bs true
        ⟨sto, tr, none⟩ =
        ⟨some os2, tr ++ false :: List.replicate k true, none⟩ ∧
      os2.nRows = rowIdx.length ∧
      os2.accession = stripIf rmv (select fr rowIdx "") ∧
      os2.nCols = colIdx.length ∧
      os2.cellId = select caVals colIdx "" ∧
      os2.originalFile = List.replicate colIdx.length inDs.name ∧
      os2.modality = label.map (fun l => List.replicate colIdx.length (some l)) ∧
      StoreWF os2 ∧
      (∀ i j, i < rowIdx.length → j < (colIdx.take (max 1 bs)).length →
        sumValsRC os2.entries i j =
          inDs.layer layer (rowIdx.getD i 0) (colIdx.getD j 0)) ∧
      (∀ i j, j < (colIdx.drop (max 1 bs)).length →
        sumValsRC os2.entries i ((colIdx.take (max 1 bs)).length + j) =
          ((List.range rowIdx.length).map (fun r =>
            if replaceFn ps r = i
            then inDs.layer layer (rowIdx.getD r 0)
              ((colIdx.drop (max 1 bs)).getD j 0)
            else 0)).sum) := by
  rcases List.exists_cons_of_ne_nil hcne with ⟨c0, crest, hc0⟩
  subst hc0
  have hred : low_mem_add_data inDs layer featAttr cellAttr label vra vca rmv
      bs true ⟨sto, tr, none⟩ =
      processBatches inDs layer cellAttr label rowIdx ps
        (stripIf rmv (select acc rowIdx ""))
        (stripIf rmv (select fr rowIdx ""))
        (chunkList bs (c0 :: crest)) false ⟨sto, tr, none⟩ := by
    simp only [low_mem_add_data, lowMemOutIds, getRa, hvra, hvca, hfr, hacc,
      hloc, if_true, bind_ok_scf, bind_pure_scf]
    rfl
  rw [chunkList_ne_nil] at hred
  have hstep := processBatch_create_ok inDs layer cellAttr label rowIdx ps
    (stripIf rmv (select acc rowIdx "")) (stripIf rmv (select fr rowIdx ""))
    ((c0 :: crest).take (max 1 bs)) sto tr caVals hca
  set os0 : OutStore :=
    { nRows := rowIdx.length
      nCols := ((c0 :: crest).take (max 1 bs)).length
      entries := (sparseSlice inDs layer rowIdx
        ((c0 :: crest).take (max 1 bs))).entries
      accession := stripIf rmv (select fr rowIdx "")
      cellId := select caVals ((c0 :: crest).take (max 1 bs)) ""
      originalFile :=
        List.replicate ((c0 :: crest).take (max 1 bs)).length inDs.name
      modality := label.map (fun l =>
        List.replicate ((c0 :: crest).take (max 1 bs)).length (some l)) }
    with hos0
  have hwf0 : StoreWF os0 := by
    intro e he
    rw [hos0] at he ⊢
    exact chunk_cols_lt_slice inDs layer rowIdx _ e he
  have hR0 : rowIdx.length = os0.nRows := rfl
  have hm0 : os0.modality.isSome = label.isSome := by
    rw [hos0]
    exact isSome_map_label label _
  rcases processBatches_append_ok inDs layer cellAttr label rowIdx ps
      (stripIf rmv (select acc rowIdx ""))
      (stripIf rmv (select fr rowIdx ""))
      (chunkList bs ((c0 :: crest).drop (max 1 bs))) os0 (tr ++ [false]) caVals
      hca hR0 hwf0 hm0 with
    ⟨os2, hrun, hrows, hacc2, hcols, hcell, hfile, hmod, hwf2, hpres, hvals⟩
  rw [chunkList_flatten] at hcols hcell hfile hmod hvals
  have hsplit : ((c0 :: crest).take (max 1 bs)).length +
      ((c0 :: crest).drop (max 1 bs)).length = (c0 :: crest).length := by
    have h := congrArg List.length (List.take_append_drop (max 1 bs) (c0 :: crest))
    rw [List.length_append] at h
    exact h
  refine ⟨os2, (chunkList bs ((c0 :: crest).drop (max 1 bs))).length, ?_, ?_,
    ?_, ?_, ?_, ?_, ?_, hwf2, ?_, ?_⟩
  · rw [hred, processBatches, hstep, hrun, List.append_assoc]
    rfl
  · rw [hrows]
  · rw [hacc2]
  · rw [hcols]
    show os0.nCols + ((c0 :: crest).drop (max 1 bs)).length = _
    rw [hos0]
    exact hsplit
  · rw [hcell]
    show os0.cellId ++ select caVals ((c0 :: crest).drop (max 1 bs)) "" = _
    rw [hos0]
    simp only []
    rw [← select_append, List.take_append_drop]
  · rw [hfile]
    show os0.originalFile ++
        List.replicate ((c0 :: crest).drop (max 1 bs)).length inDs.name = _
    rw [hos0]
    simp only []
    rw [← List.replicate_add, hsplit]
  · rw [hmod]
    show mergeMod os0.modality
        (label.map (fun l =>
          List.replicate ((c0 :: crest).drop (max 1 bs)).length (some l))) = _
    rw [hos0]
    cases label with
    | none => simp [mergeMod]
    | some l =>
      simp only [Option.map_some', mergeMod]
      rw [← List.replicate_add, hsplit]
  · intro i j hi hj
    have hj0 : j < os0.nCols := hj
    rw [hpres i j hj0]
    show sumValsRC (sparseSlice inDs layer rowIdx
      ((c0 :: crest).take (max 1 bs))).entries i j = _
    rw [sumValsRC_slice inDs layer rowIdx _ hi hj]
    rw [getD_take _ _ _ hj]
  · intro i j hj
    have := hvals i j hj
    rw [this]

theorem exIsOk_iff {e : Except IntError α} :
    exIsOk e = true ↔ ∃ a, e = .ok a := by
  cases e with
  | ok a => simp [exIsOk]
  | error e => simp [exIsOk]

theorem exGetD_ok {e : Except IntError α} {a : α} (h : e = .ok a) (d : α) :
    exGetD e d = a := by
  rw [h]
  rfl

theorem isSome_mergeMod_some (a : Option (List (Option String)))
    (b : List (Option String)) : (mergeMod a (some b)).isSome = a.isSome := by
  cases a <;> simp [mergeMod]

/-- Folding `low_mem_add_data` over the normalized target list: the trace
gains only appends, the row schema and canonical identifiers never change,
and the column attributes grow by per-target concatenation in order. -/
theorem fold_targets_ok (rmv : Bool) (bs : ℕ) (specs : List TargetSpec)
    (os : OutStore) (tr : List Bool) (hwf : StoreWF os)
    (hall : ∀ sp ∈ specs, specOK rmv os.accession os.nRows os.modality.isSome sp) :
    ∃ (os2 : OutStore) (k : ℕ),
      specs.foldl (fun st sp =>
        low_mem_add_data sp.ds sp.layer sp.featAttr sp.cellAttr sp.label
          sp.validRa sp.validCa rmv bs false st) ⟨some os, tr, none⟩ =
        ⟨some os2, tr ++ List.replicate k true, none⟩ ∧
      os2.nRows = os.nRows ∧ os2.accession = os.accession ∧
      os2.nCols = os.nCols + (specs.map (fun sp => (tgtCols sp).length)).sum ∧
      os2.cellId = os.cellId ++ (specs.map tgtCells).flatten ∧
      os2.originalFile = os.originalFile ++ (specs.map (fun sp =>
        List.replicate (tgtCols sp).length sp.ds.name)).flatten ∧
      os2.modality = mergeMod os.modality (some (modBlocks specs)) ∧
      StoreWF os2 ∧
      (∀ i j, j < os.nCols → sumValsRC os2.entries i j = sumValsRC os.entries i j) := by
  induction specs generalizing os tr with
  | nil =>
    refine ⟨os, 0, by simp, rfl, rfl, by simp, by simp, by simp, ?_, hwf,
      fun i j _ => rfl⟩
    cases os.modality <;> simp [mergeMod, modBlocks]
  | cons sp rest ih =>
    rcases hall sp (List.mem_cons_self sp rest) with
      ⟨hvraOk, hvcaOk, hfrS, hcaS, hlocOk, hRl, hlab⟩
    rcases exIsOk_iff.mp hvraOk with ⟨rowIdx, hvra⟩
    rcases exIsOk_iff.mp hvcaOk with ⟨colIdx, hvca⟩
    rcases Option.isSome_iff_exists.mp hfrS with ⟨fr, hfr⟩
    rcases Option.isSome_iff_exists.mp hcaS with ⟨caVals, hca⟩
    have hrowIdx : dsRowIdx sp.ds sp.validRa = rowIdx := exGetD_ok hvra []
    have hcolIdx : dsColIdx sp.ds sp.validCa = colIdx := exGetD_ok hvca []
    have hfeats : tgtFeats rmv sp = stripIf rmv (select fr rowIdx "") := by
      unfold tgtFeats dsFeatIds
      rw [hrowIdx, hfr]
      rfl
    rcases exIsOk_iff.mp hlocOk with ⟨ps, hloc⟩
    rw [hfeats] at hloc
    have hR : rowIdx.length = os.nRows := by
      rw [← hrowIdx]
      exact hRl
    have hmS : os.modality.isSome = sp.label.isSome := hlab.symm
    rcases low_mem_add_data_append_ok sp.ds sp.layer sp.featAttr sp.cellAttr
        sp.label sp.validRa sp.validCa rmv bs os tr rowIdx colIdx fr caVals ps
        hvra hvca hfr hca hloc hR hwf hmS with
      ⟨os1, hrun1, hrows1, hacc1, hcols1, hcell1, hfile1, hmod1, hwf1, hpres1, _⟩
    have hmod1S : os1.modality.isSome = os.modality.isSome := by
      rw [hmod1]
      cases hl : sp.label with
      | none =>
        rw [hl] at hmS
        simp at hmS
        simp only [Option.map_none']
        cases hmm : os.modality with
        | none => rfl
        | some m =>
          rw [hmm] at hmS
          simp at hmS
      | some l =>
        simp only [Option.map_some']
        exact isSome_mergeMod_some os.modality _
    have hall2 : ∀ sp2 ∈ rest,
        specOK rmv os1.accession os1.nRows os1.modality.isSome sp2 := by
      intro sp2 hsp2
      rw [hacc1, hrows1, hmod1S]
      exact hall sp2 (List.mem_cons_of_mem sp hsp2)
    rcases ih os1 (tr ++ List.replicate (chunkList bs colIdx).length true)
        hwf1 hall2 with
      ⟨os2, k2, hrun2, hrows2, hacc2, hcols2, hcell2, hfile2, hmod2, hwf2, hpres2⟩
    refine ⟨os2, (chunkList bs colIdx).length + k2, ?_, ?_, ?_, ?_, ?_, ?_, ?_,
      hwf2, ?_⟩
    · rw [List.foldl_cons, hrun1, hrun2, List.replicate_add, ← List.append_assoc]
    · rw [hrows2, hrows1]
    · rw [hacc2, hacc1]
    · rw [hcols2, hcols1]
      have hc : (tgtCols sp).length = colIdx.length := by
        unfold tgtCols
        rw [hcolIdx]
      simp only [List.map_cons, List.sum_cons]
      rw [hc]
      omega
    · rw [hcell2, hcell1]
      have : select caVals colIdx "" = tgtCells sp := by
        unfold tgtCells dsCellIds
        rw [hcolIdx, hca]
        rfl
      rw [this]
      simp only [List.map_cons, List.flatten_cons, List.append_assoc]
    · rw [hfile2, hfile1]
      have : List.replicate colIdx.length sp.ds.name =
          List.replicate (tgtCols sp).length sp.ds.name := by
        unfold tgtCols
        rw [hcolIdx]
      rw [this]
      simp only [List.map_cons, List.flatten_cons, List.append_assoc]
    · rw [hmod2, hmod1]
      have hblk : modBlocks (sp :: rest) =
          List.replicate colIdx.length (some (sp.label.getD "")) ++
            modBlocks rest := by
        unfold modBlocks tgtCols
        rw [List.map_cons, List.flatten_cons, hcolIdx]
      rw [hblk]
      cases hmm : os.modality with
      | none => simp [mergeMod]
      | some m =>
        cases hl : sp.label with
        | none =>
          rw [hmm, hl] at hmS
          simp at hmS
        | some l =>
          simp only [Option.map_some', Option.getD_some, mergeMod,
            List.append_assoc]
    · intro i j hj
      have hj1 : j < os1.nCols := by
        rw [hcols1]
        omega
      rw [hpres2 i j hj1, hpres1 i j hj]

theorem getD_mem {xs : List String} {i : ℕ} (hi : i < xs.length) (d : String) :
    xs.getD i d ∈ xs := by
  rw [List.getD_eq_getElem _ _ hi]
  exact List.getElem_mem hi

/-- When the local identifiers are a permutation of the canonical ones, the
alignment dict sends exactly one local row to each canonical row, and the
remap sum collapses to that row's value. -/
theorem aligned_single_survivor (featIds canonical : List String)
    (ps : List ℕ) (hps : ps = canonical.map (fun x => idxOf x featIds))
    (hnd : canonical.Nodup) (hperm : featIds.Perm canonical) {i n : ℕ}
    (hi : i < canonical.length) (hn : featIds.length = n) (F : ℕ → ℚ) :
    ((List.range n).map (fun r => if replaceFn ps r = i then F r else 0)).sum
      = F (idxOf (canonical.getD i "") featIds) := by
  have hndf : featIds.Nodup := hperm.nodup_iff.mpr hnd
  have hsub : ∀ x ∈ canonical, x ∈ featIds := fun x hx => hperm.mem_iff.mpr hx
  have hmemf : canonical.getD i "" ∈ featIds := hsub _ (getD_mem hi "")
  have hr0 : idxOf (canonical.getD i "") featIds < featIds.length :=
    idxOf_lt_length hmemf
  have hchar : ∀ r, r < n →
      (replaceFn ps r = i ↔ r = idxOf (canonical.getD i "") featIds) := by
    intro r hr
    have hrf : r < featIds.length := by omega
    have hmemc : featIds.getD r "" ∈ canonical :=
      hperm.mem_iff.mp (getD_mem hrf "")
    rw [hps, dict_maps hndf hnd hsub hrf hmemc]
    constructor
    · intro hidx
      have hfc : featIds.getD r "" = canonical.getD i "" := by
        rw [← hidx]
        exact (getD_idxOf hmemc "").symm
      rw [← hfc, idxOf_getD hndf hrf ""]
    · intro hre
      rw [hre, getD_idxOf hmemf "", idxOf_getD hnd hi ""]
  rw [sum_map_range_single n (idxOf (canonical.getD i "") featIds) _
    (by omega) (fun r hrn hne => by
      rw [if_neg (fun hrep => hne ((hchar r hrn).mp hrep))])]
  rw [if_pos ((hchar _ (by omega)).mpr rfl)]

/-- Folding `low_mem_add_data` over aligned targets additionally pins every
new cell of the store: output row `i` of target `t` reads the target's local
row whose stripped identifier equals canonical identifier `i`. -/
theorem fold_targets_aligned (rmv : Bool) (bs : ℕ) (specs : List TargetSpec)
    (os : OutStore) (tr : List Bool) (hwf : StoreWF os)
    (hall : ∀ sp ∈ specs, specOK rmv os.accession os.nRows os.modality.isSome sp)
    (halign : ∀ sp ∈ specs, specAligned rmv os.accession sp)
    (hnd : (stripIf rmv os.accession).Nodup)
    (hlen : (stripIf rmv os.accession).length = os.nRows) :
    ∃ (os2 : OutStore) (k : ℕ),
      specs.foldl (fun st sp =>
        low_mem_add_data sp.ds sp.layer sp.featAttr sp.cellAttr sp.label
          sp.validRa sp.validCa rmv bs false st) ⟨some os, tr, none⟩ =
        ⟨some os2, tr ++ List.replicate k true, none⟩ ∧
      os2.nRows = os.nRows ∧ os2.accession = os.accession ∧
      os2.nCols = os.nCols + (specs.map (fun sp => (tgtCols sp).length)).sum ∧
      StoreWF os2 ∧
      (∀ i j, j < os.nCols → sumValsRC os2.entries i j = sumValsRC os.entries i j) ∧
      (∀ t i j, t < specs.length → i < os.nRows →
        j < (tgtCols (specs.getD t dfltSpec)).length →
        sumValsRC os2.entries i
          (os.nCols + ((specs.take t).map (fun sp => (tgtCols sp).length)).sum + j) =
          alignedVal rmv os.accession (specs.getD t dfltSpec) i j) := by
  induction specs generalizing os tr with
  | nil =>
    exact ⟨os, 0, by simp, rfl, rfl, by simp, hwf, fun i j _ => rfl,
      fun t i j ht _ _ => by simp at ht⟩
  | cons sp rest ih =>
    rcases hall sp (List.mem_cons_self sp rest) with
      ⟨hvraOk, hvcaOk, hfrS, hcaS, hlocOk, hRl, hlab⟩
    rcases exIsOk_iff.mp hvraOk with ⟨rowIdx, hvra⟩
    rcases exIsOk_iff.mp hvcaOk with ⟨colIdx, hvca⟩
    rcases Option.isSome_iff_exists.mp hfrS with ⟨fr, hfr⟩
    rcases Option.isSome_iff_exists.mp hcaS with ⟨caVals, hca⟩
    have hrowIdx : dsRowIdx sp.ds sp.validRa = rowIdx := exGetD_ok hvra []
    have hcolIdx : dsColIdx sp.ds sp.validCa = colIdx := exGetD_ok hvca []
    have hfeats : tgtFeats rmv sp = stripIf rmv (select fr rowIdx "") := by
      unfold tgtFeats dsFeatIds
      rw [hrowIdx, hfr]
      rfl
    have hpermc : (tgtFeats rmv sp).Perm (stripIf rmv os.accession) :=
      halign sp (List.mem_cons_self sp rest)
    have hndf : (tgtFeats rmv sp).Nodup := hpermc.nodup_iff.mpr hnd
    have hsubf : ∀ x ∈ stripIf rmv os.accession, x ∈ tgtFeats rmv sp :=
      fun x hx => hpermc.mem_iff.mpr hx
    have hloc : locPositions (stripIf rmv (select fr rowIdx ""))
        (stripIf rmv os.accession) =
        .ok ((stripIf rmv os.accession).map
          (fun x => idxOf x (stripIf rmv (select fr rowIdx "")))) := by
      rw [← hfeats]
      exact locPositions_nodup hndf hsubf
    have hR : rowIdx.length = os.nRows := by
      rw [← hrowIdx]
      exact hRl
    have hmS : os.modality.isSome = sp.label.isSome := hlab.symm
    rcases low_mem_add_data_append_ok sp.ds sp.layer sp.featAttr sp.cellAttr
        sp.label sp.validRa sp.validCa rmv bs os tr rowIdx colIdx fr caVals _
        hvra hvca hfr hca hloc hR hwf hmS with
      ⟨os1, hrun1, hrows1, hacc1, hcols1, hcell1, hfile1, hmod1, hwf1, hpres1,
        hvals1⟩
    have hmod1S : os1.modality.isSome = os.modality.isSome := by
      rw [hmod1]
      cases hl : sp.label with
      | none =>
        rw [hl] at hmS
        simp only [Option.map_none']
        cases hmm : os.modality with
        | none => rfl
        | some m =>
          rw [hmm] at hmS
          simp at hmS
      | some l =>
        simp only [Option.map_some']
        exact isSome_mergeMod_some os.modality _
    have hall2 : ∀ sp2 ∈ rest,
        specOK rmv os1.accession os1.nRows os1.modality.isSome sp2 := by
      intro sp2 hsp2
      rw [hacc1, hrows1, hmod1S]
      exact hall sp2 (List.mem_cons_of_mem sp hsp2)
    have halign2 : ∀ sp2 ∈ rest, specAligned rmv os1.accession sp2 := by
      intro sp2 hsp2
      rw [hacc1]
      exact halign sp2 (List.mem_cons_of_mem sp hsp2)
    have hnd2 : (stripIf rmv os1.accession).Nodup := by
      rw [hacc1]
      exact hnd
    have hlen2 : (stripIf rmv os1.accession).length = os1.nRows := by
      rw [hacc1, hrows1]
      exact hlen
    rcases ih os1 (tr ++ List.replicate (chunkList bs colIdx).length true)
        hwf1 hall2 halign2 hnd2 hlen2 with
      ⟨os2, k2, hrun2, hrows2, hacc2, hcols2, hwf2, hpres2, hvals2⟩
    have hc : (tgtCols sp).length = colIdx.length := by
      unfold tgtCols
      rw [hcolIdx]
    refine ⟨os2, (chunkList bs colIdx).length + k2, ?_, ?_, ?_, ?_, hwf2, ?_, ?_⟩
    · rw [List.foldl_cons, hrun1, hrun2, List.replicate_add, ← List.append_assoc]
    · rw [hrows2, hrows1]
    · rw [hacc2, hacc1]
    · rw [hcols2, hcols1]
      simp only [List.map_cons, List.sum_cons]
      rw [hc]
      omega
    · intro i j hj
      have hj1 : j < os1.nCols := by
        rw [hcols1]
        omega
      rw [hpres2 i j hj1, hpres1 i j hj]
    · intro t i j ht hi hj
      cases t with
      | zero =>
        simp only [List.take_zero, List.map_nil, List.sum_nil, Nat.add_zero,
          List.getD_cons_zero] at hj ⊢
        have hjc : j < colIdx.length := by
          rw [← hc]
          exact hj
        have hlt1 : os.nCols + j < os1.nCols := by
          rw [hcols1]
          omega
        rw [hpres2 i (os.nCols + j) hlt1, hvals1 i j hjc]
        have hfl : (stripIf rmv (select fr rowIdx "")).length = rowIdx.length := by
          rw [length_stripIf, length_select]
        have hsurv := aligned_single_survivor
          (stripIf rmv (select fr rowIdx "")) (stripIf rmv os.accession) _
          rfl hnd (by rw [← hfeats]; exact hpermc) (by rw [hlen]; exact hi) hfl
          (fun r => sp.ds.layer sp.layer (rowIdx.getD r 0) (colIdx.getD j 0))
        rw [hsurv]
        unfold alignedVal
        rw [hrowIdx, ← hfeats]
        unfold tgtCols
        rw [hcolIdx]
      | succ t2 =>
        have ht2 : t2 < rest.length := by simpa using ht
        have harith : os.nCols +
            ((List.take (t2 + 1) (sp :: rest)).map
              (fun sp => (tgtCols sp).length)).sum + j =
            os1.nCols +
            ((List.take t2 rest).map (fun sp => (tgtCols sp).length)).sum + j := by
          rw [hcols1]
          simp only [List.take_succ_cons, List.map_cons, List.sum_cons]
          rw [hc]
          omega
        rw [harith]
        have hi1 : i < os1.nRows := by
          rw [hrows1]
          exact hi
        have hj1 : j < (tgtCols (rest.getD t2 dfltSpec)).length := by
          simpa using hj
        have := hvals2 t2 i j ht2 hi1 hj1
        rw [List.getD_cons_succ] at *
        rw [this, hacc1]

/-- A successful streaming merge, characterized on the attribute level: the
store is created once by the source's first batch, every other write is an
append, the canonical row attribute comes from the source alone, and the
column attributes are the per-dataset concatenation in arrival order. -/
theorem low_mem_integrate_ok (src : Dataset) (tgt : PyParam Dataset)
    (layerS : String) (layerT : PyParam String) (featS : String)
    (featT : PyParam String) (cellS : String) (cellT : PyParam String)
    (labS : Option String) (labT : PyParam (Option String))
    (vraS vcaS : Option String) (vraT vcaT : PyParam (Option String))
    (rmv : Bool) (bs : ℕ) (specs : List TargetSpec)
    (rowIdxS colIdxS : List ℕ) (fr acc caV : List String) (psS : List ℕ)
    (hnorm : normalizeTargets tgt layerT featT cellT labT vraT vcaT = .ok specs)
    (hvraS : get_attr_index src vraS false = .ok rowIdxS)
    (hvcaS : get_attr_index src vcaS true = .ok colIdxS)
    (hfrS : src.ra featS = some fr)
    (haccS : src.ra "Accession" = some acc)
    (hcaS : src.ca cellS = some caV)
    (hlocS : locPositions (stripIf rmv (select fr rowIdxS ""))
      (stripIf rmv (select acc rowIdxS "")) = .ok psS)
    (hcne : colIdxS ≠ [])
    (hall : ∀ sp ∈ specs, specOK rmv (stripIf rmv (select fr rowIdxS ""))
      rowIdxS.length labS.isSome sp) :
    ∃ (store : OutStore) (k : ℕ),
      low_mem_integrate src tgt layerS layerT featS featT cellS cellT labS
        labT vraS vraT vcaS vcaT rmv bs =
        ⟨some store, false :: List.replicate k true, none⟩ ∧
      store.nRows = rowIdxS.length ∧
      store.accession = stripIf rmv (select fr rowIdxS "") ∧
      store.nCols = colIdxS.length +
        (specs.map (fun sp => (tgtCols sp).length)).sum ∧
      store.cellId = select caV colIdxS "" ++ (specs.map tgtCells).flatten ∧
      store.originalFile = List.replicate colIdxS.length src.name ++
        (specs.map (fun sp =>
          List.replicate (tgtCols sp).length sp.ds.name)).flatten ∧
      store.modality = mergeMod
        (labS.map (fun l => List.replicate colIdxS.length (some l)))
        (some (modBlocks specs)) ∧
      StoreWF store := by
  rcases low_mem_add_data_genout_ok src layerS featS cellS labS vraS vcaS rmv
      bs none [] rowIdxS colIdxS fr acc caV psS hvraS hvcaS hfrS haccS hcaS
      hlocS hcne with
    ⟨osS, kS, hrunS, hrowsS, haccS2, hcolsS, hcellS2, hfileS, hmodS, hwfS,
      _, _⟩
  have hallS : ∀ sp ∈ specs,
      specOK rmv osS.accession osS.nRows osS.modality.isSome sp := by
    intro sp hsp
    rw [haccS2, hrowsS, hmodS, isSome_map_label]
    exact hall sp hsp
  rcases fold_targets_ok rmv bs specs osS (false :: List.replicate kS true)
      hwfS hallS with
    ⟨os2, k2, hrun2, hrows2, hacc2, hcols2, hcell2, hfile2, hmod2, hwf2, _⟩
  refine ⟨os2, kS + k2, ?_, ?_, ?_, ?_, ?_, ?_, ?_, hwf2⟩
  · simp only [low_mem_integrate, hnorm]
    have hinit : low_mem_add_data src layerS featS cellS labS vraS vcaS rmv bs
        true initState =
        ⟨some osS, false :: List.replicate kS true, none⟩ := by
      rw [show initState = (⟨none, [], none⟩ : RunState) from rfl, hrunS]
      rfl
    rw [hinit, hrun2, List.replicate_add]
    show RunState.mk _ ((false :: List.replicate kS true) ++ _) _ = _
    simp [List.cons_append]
  · rw [hrows2, hrowsS]
  · rw [hacc2, haccS2]
  · rw [hcols2, hcolsS]
  · rw [hcell2, hcellS2]
  · rw [hfile2, hfileS]
  · rw [hmod2, hmodS]

/-- A successful streaming merge over aligned targets, characterized on the
value level: every source cell is copied straight through, and every target
cell lands at the canonical row of its feature identifier. -/
theorem low_mem_integrate_aligned (src : Dataset) (tgt : PyParam Dataset)
    (layerS : String) (layerT : PyParam String) (featS : String)
    (featT : PyParam String) (cellS : String) (cellT : PyParam String)
    (labS : Option String) (labT : PyParam (Option String))
    (vraS vcaS : Option String) (vraT vcaT : PyParam (Option String))
    (rmv : Bool) (bs : ℕ) (specs : List TargetSpec)
    (rowIdxS colIdxS : List ℕ) (fr caV : List String)
    (hnorm : normalizeTargets tgt layerT featT cellT labT vraT vcaT = .ok specs)
    (hvraS : get_attr_index src vraS false = .ok rowIdxS)
    (hvcaS : get_attr_index src vcaS true = .ok colIdxS)
    (hfrS : src.ra featS = some fr)
    (haccS : src.ra "Accession" = some fr)
    (hcaS : src.ca cellS = some caV)
    (hcne : colIdxS ≠ [])
    (hnd : (stripIf rmv (select fr rowIdxS "")).Nodup)
    (hstab : stripIf rmv (stripIf rmv (select fr rowIdxS "")) =
      stripIf rmv (select fr rowIdxS ""))
    (hall : ∀ sp ∈ specs, specOK rmv (stripIf rmv (select fr rowIdxS ""))
      rowIdxS.length labS.isSome sp)
    (halign : ∀ sp ∈ specs, specAligned rmv
      (stripIf rmv (select fr rowIdxS "")) sp) :
    ∃ (store : OutStore) (k : ℕ),
      low_mem_integrate src tgt layerS layerT featS featT cellS cellT labS
        labT vraS vraT vcaS vcaT rmv bs =
        ⟨some store, false :: List.replicate k true, none⟩ ∧
      store.nRows = rowIdxS.length ∧
      store.accession = stripIf rmv (select fr rowIdxS "") ∧
      store.nCols = colIdxS.length +
        (specs.map (fun sp => (tgtCols sp).length)).sum ∧
      store.cellId = select caV colIdxS "" ++ (specs.map tgtCells).flatten ∧
      store.originalFile = List.replicate colIdxS.length src.name ++
        (specs.map (fun sp =>
          List.replicate (tgtCols sp).length sp.ds.name)).flatten ∧
      store.modality = mergeMod
        (labS.map (fun l => List.replicate colIdxS.length (some l)))
        (some (modBlocks specs)) ∧
      StoreWF store ∧
      (∀ i j, i < rowIdxS.length → j < colIdxS.length →
        sumValsRC store.entries i j =
          src.layer layerS (rowIdxS.getD i 0) (colIdxS.getD j 0)) ∧
      (∀ t i j, t < specs.length → i < rowIdxS.length →
        j < (tgtCols (specs.getD t dfltSpec)).length →
        sumValsRC store.entries i
          (colIdxS.length +
            ((specs.take t).map (fun sp => (tgtCols sp).length)).sum + j) =
          alignedVal rmv (stripIf rmv (select fr rowIdxS ""))
            (specs.getD t dfltSpec) i j) := by
  have hfl : (stripIf rmv (select fr rowIdxS "")).length = rowIdxS.length := by
    rw [length_stripIf, length_select]
  have hlocS : locPositions (stripIf rmv (select fr rowIdxS ""))
      (stripIf rmv (select fr rowIdxS "")) =
      .ok ((stripIf rmv (select fr rowIdxS "")).map
        (fun x => idxOf x (stripIf rmv (select fr rowIdxS "")))) :=
    locPositions_nodup hnd (fun x hx => hx)
  rcases low_mem_add_data_genout_ok src layerS featS cellS labS vraS vcaS rmv
      bs none [] rowIdxS colIdxS fr fr caV _ hvraS hvcaS hfrS haccS hcaS
      hlocS hcne with
    ⟨osS, kS, hrunS, hrowsS, haccS2, hcolsS, hcellS2, hfileS, hmodS, hwfS,
      hval1, hval2⟩
  have hallS : ∀ sp ∈ specs,
      specOK rmv osS.accession osS.nRows osS.modality.isSome sp := by
    intro sp hsp
    rw [haccS2, hrowsS, hmodS, isSome_map_label]
    exact hall sp hsp
  have halignS : ∀ sp ∈ specs, specAligned rmv osS.accession sp := by
    intro sp hsp
    rw [haccS2]
    exact halign sp hsp
  have hndS : (stripIf rmv osS.accession).Nodup := by
    rw [haccS2, hstab]
    exact hnd
  have hlenS : (stripIf rmv osS.accession).length = osS.nRows := by
    rw [haccS2, hstab, hrowsS]
    exact hfl
  rcases fold_targets_ok rmv bs specs osS (false :: List.replicate kS true)
      hwfS hallS with
    ⟨os2, k2, hrun2, hrows2, hacc2, hcols2, hcell2, hfile2, hmod2, hwf2, _⟩
  rcases fold_targets_aligned rmv bs specs osS (false :: List.replicate kS true)
      hwfS hallS halignS hndS hlenS with
    ⟨os3, k3, hrun3, _, _, _, _, hpres3, hvals3⟩
  have hsame : os3 = os2 := by
    have := hrun3.symm.trans hrun2
    injection this with h1 h2 h3
    injection h1
  subst hsame
  refine ⟨os3, kS + k2, ?_, ?_, ?_, ?_, ?_, ?_, ?_, hwf2, ?_, ?_⟩
  · simp only [low_mem_integrate, hnorm]
    have hinit : low_mem_add_data src layerS featS cellS labS vraS vcaS rmv bs
        true initState =
        ⟨some osS, false :: List.replicate kS true, none⟩ := by
      rw [show initState = (⟨none, [], none⟩ : RunState) from rfl, hrunS]
      rfl
    rw [hinit, hrun2, List.replicate_add]
    show RunState.mk _ ((false :: List.replicate kS true) ++ _) _ = _
    simp [List.cons_append]
  · rw [hrows2, hrowsS]
  · rw [hacc2, haccS2]
  · rw [hcols2, hcolsS]
  · rw [hcell2, hcellS2]
  · rw [hfile2, hfileS]
  · rw [hmod2, hmodS]
  · -- source region values
    intro i j hi hj
    have hjS : j < osS.nCols := by
      rw [hcolsS]
      exact hj
    rw [hpres3 i j hjS]
    have htake : (colIdxS.take (max 1 bs)).length = min (max 1 bs) colIdxS.length :=
      List.length_take _ _
    by_cases hjt : j < (colIdxS.take (max 1 bs)).length
    · exact hval1 i j hi hjt
    · have hb : (colIdxS.take (max 1 bs)).length = max 1 bs := by omega
      have hj2 : j - (colIdxS.take (max 1 bs)).length <
          (colIdxS.drop (max 1 bs)).length := by
        rw [List.length_drop]
        omega
      have harith : j = (colIdxS.take (max 1 bs)).length +
          (j - (colIdxS.take (max 1 bs)).length) := by omega
      rw [harith, hval2 i _ hj2]
      have hps : (stripIf rmv (select fr rowIdxS "")).map
          (fun x => idxOf x (stripIf rmv (select fr rowIdxS ""))) =
          (stripIf rmv (select fr rowIdxS "")).map
            (fun x => idxOf x (stripIf rmv (select fr rowIdxS ""))) := rfl
      have hsurv := aligned_single_survivor
        (stripIf rmv (select fr rowIdxS ""))
        (stripIf rmv (select fr rowIdxS "")) _ rfl hnd (List.Perm.refl _)
        (show i < (stripIf rmv (select fr rowIdxS "")).length by omega) hfl
        (fun r => src.layer layerS (rowIdxS.getD r 0)
          ((colIdxS.drop (max 1 bs)).getD
            (j - (colIdxS.take (max 1 bs)).length) 0))
      rw [hsurv]
      have hidx : idxOf ((stripIf rmv (select fr rowIdxS "")).getD i "")
          (stripIf rmv (select fr rowIdxS "")) = i :=
        idxOf_getD hnd (by omega) ""
      rw [hidx]
      have hdrop : (colIdxS.drop (max 1 bs)).getD
          (j - (colIdxS.take (max 1 bs)).length) 0 = colIdxS.getD j 0 := by
        rw [getD_drop _ _ _ hj2]
        congr 1
        omega
      rw [hdrop, ← harith]
  · -- target region values
    intro t i j ht hi hj
    have := hvals3 t i j ht (by rw [hrowsS]; exact hi) hj
    rw [hcolsS] at this
    rw [this, haccS2]

/-! ## Full-memory engine lemmas -/

theorem high_mem_get_data_spec (rmv : Bool) (sp : TargetSpec)
    (h : specReads sp) :
    high_mem_get_data sp.ds sp.layer sp.featAttr sp.cellAttr sp.validRa
      sp.validCa rmv = .ok (specFrame rmv sp) := by
  rcases h with ⟨h1, h2, h3, h4⟩
  rcases exIsOk_iff.mp h1 with ⟨rowIdx, hvra⟩
  rcases exIsOk_iff.mp h2 with ⟨colIdx, hvca⟩
  rcases Option.isSome_iff_exists.mp h3 with ⟨fr, hfr⟩
  rcases Option.isSome_iff_exists.mp h4 with ⟨caVals, hca⟩
  simp only [high_mem_get_data, getRa, getCa, hvra, hvca, hfr, hca,
    bind_ok_scf, bind_pure_scf]
  unfold specFrame tgtCells dsCellIds tgtFeats dsFeatIds tgtCols dsRowIdx
    dsColIdx
  rw [exGetD_ok hvra [], exGetD_ok hvca [], hfr, hca]
  rfl

theorem high_mem_repeat_label_spec {α : Type} (sp : TargetSpec) (label : α)
    (h : exIsOk (get_attr_index sp.ds sp.validCa true) = true) :
    high_mem_repeat_label sp.ds sp.validCa label =
      .ok (List.replicate (tgtCols sp).length label) := by
  rcases exIsOk_iff.mp h with ⟨colIdx, hvca⟩
  simp only [high_mem_repeat_label, hvca, bind_ok_scf, bind_pure_scf]
  unfold tgtCols dsColIdx
  rw [exGetD_ok hvca []]

theorem getFrames_ok (rmv : Bool) (specs : List TargetSpec)
    (h : ∀ sp ∈ specs, specReads sp) :
    getFrames rmv specs = .ok (specs.map (specFrame rmv)) := by
  induction specs with
  | nil => rfl
  | cons sp rest ih =>
    rw [getFrames, high_mem_get_data_spec rmv sp (h sp (List.mem_cons_self sp rest)),
      ih (fun sp2 h2 => h sp2 (List.mem_cons_of_mem sp h2))]
    rfl

theorem getFileLabels_ok (specs : List TargetSpec)
    (h : ∀ sp ∈ specs, specReads sp) :
    getFileLabels specs = .ok (specs.map (fun sp =>
      List.replicate (tgtCols sp).length sp.ds.name)) := by
  induction specs with
  | nil => rfl
  | cons sp rest ih =>
    rw [getFileLabels,
      high_mem_repeat_label_spec sp sp.ds.name
        (h sp (List.mem_cons_self sp rest)).2.1,
      ih (fun sp2 h2 => h sp2 (List.mem_cons_of_mem sp h2))]
    rfl

theorem getTypeLabels_ok (specs : List TargetSpec)
    (h : ∀ sp ∈ specs, specReads sp) :
    getTypeLabels specs = .ok (specs.map (fun sp =>
      List.replicate (tgtCols sp).length sp.label)) := by
  induction specs with
  | nil => rfl
  | cons sp rest ih =>
    rw [getTypeLabels,
      high_mem_repeat_label_spec sp sp.label
        (h sp (List.mem_cons_self sp rest)).2.1,
      ih (fun sp2 h2 => h sp2 (List.mem_cons_of_mem sp h2))]
    rfl

/-- A successful full-memory merge, fully characterized: the output is the
materialization of the outer-joined concatenated frames. -/
theorem high_mem_integrate_ok (srcSp : TargetSpec) (tgt : PyParam Dataset)
    (layerT : PyParam String) (featT cellT : PyParam String)
    (labT : PyParam (Option String)) (vraT vcaT : PyParam (Option String))
    (rmv : Bool) (specs : List TargetSpec)
    (hnorm : normalizeTargets tgt layerT featT cellT labT vraT vcaT = .ok specs)
    (hsrc : specReads srcSp) (htgt : ∀ sp ∈ specs, specReads sp)
    (hlabS : srcSp.label.isSome = true)
    (hlabT : labTargetGiven labT = true) :
    high_mem_integrate srcSp.ds tgt srcSp.layer layerT srcSp.featAttr featT
      srcSp.cellAttr cellT srcSp.label labT srcSp.validRa vraT srcSp.validCa
      vcaT rmv =
    .ok { matrix := (List.range (unionCols (specFrame rmv srcSp ::
              specs.map (specFrame rmv))).length).map (fun i =>
            (List.range (((specFrame rmv srcSp :: specs.map (specFrame rmv)).map
                (fun F => F.index)).flatten.length)).map (fun j =>
              concatVal (specFrame rmv srcSp :: specs.map (specFrame rmv)) j
                ((unionCols (specFrame rmv srcSp ::
                  specs.map (specFrame rmv))).getD i "")))
          accession := unionCols (specFrame rmv srcSp ::
            specs.map (specFrame rmv))
          cellId := ((specFrame rmv srcSp :: specs.map (specFrame rmv)).map
            (fun F => F.index)).flatten
          originalFile := List.replicate (tgtCols srcSp).length srcSp.ds.name ++
            (specs.map (fun sp =>
              List.replicate (tgtCols sp).length sp.ds.name)).flatten
          modality := some
            (List.replicate (tgtCols srcSp).length srcSp.label ++
              (specs.map (fun sp =>
                List.replicate (tgtCols sp).length sp.label)).flatten) } := by
  have hisType : (srcSp.label.isSome && labTargetGiven labT) = true := by
    rw [hlabS, hlabT]
    rfl
  simp only [high_mem_integrate, hnorm, hisType, high_mem_get_data_spec rmv
    srcSp hsrc, high_mem_repeat_label_spec srcSp srcSp.label hsrc.2.1,
    high_mem_repeat_label_spec srcSp srcSp.ds.name hsrc.2.1,
    getFrames_ok rmv specs htgt, getTypeLabels_ok specs htgt,
    getFileLabels_ok specs htgt, bind_ok_scf, bind_pure_scf, if_true]
  rfl

theorem unionCols_fold_stable (rest : List PDFrame) (acc : List String)
    (h : ∀ G ∈ rest, ∀ c ∈ G.columns, c ∈ acc) :
    rest.foldl (fun a F => a ++ F.columns.filter (fun c => ¬ a.contains c))
      acc = acc := by
  induction rest generalizing acc with
  | nil => rfl
  | cons G rest ih =>
    rw [List.foldl_cons]
    have hfil : G.columns.filter (fun c => ¬ acc.contains c) = [] := by
      rw [List.filter_eq_nil_iff]
      intro c hc
      simp [h G (List.mem_cons_self G rest) c hc]
    rw [hfil, List.append_nil]
    exact ih acc (fun G2 h2 => h G2 (List.mem_cons_of_mem G h2))

/-- When every later frame's columns already occur in the first frame, the
outer-join column order is exactly the first frame's. -/
theorem unionCols_dominant (F : PDFrame) (rest : List PDFrame)
    (h : ∀ G ∈ rest, ∀ c ∈ G.columns, c ∈ F.columns) :
    unionCols (F :: rest) = F.columns := by
  unfold unionCols
  rw [List.foldl_cons]
  have h0 : ([] : List String) ++
      F.columns.filter (fun c => ¬ [].contains c) = F.columns := by
    simp
  rw [h0]
  exact unionCols_fold_stable rest F.columns h

/-- Cell of the concatenated frame inside block `k`. -/
theorem concatVal_at (fs : List PDFrame) (k : ℕ) (hk : k < fs.length) (j : ℕ)
    (hj : j < (fs.getD k emptyFrame).index.length) (f : String) :
    concatVal fs (((fs.take k).map (fun F => F.index.length)).sum + j) f =
      (fs.getD k emptyFrame).val j f := by
  induction fs generalizing k with
  | nil => simp at hk
  | cons F rest ih =>
    cases k with
    | zero =>
      simp only [List.getD_cons_zero] at hj ⊢
      simp only [List.take_zero, List.map_nil, List.sum_nil, Nat.zero_add]
      unfold concatVal
      rw [if_pos hj]
    | succ k2 =>
      have hk2 : k2 < rest.length := by simpa using hk
      simp only [List.getD_cons_succ] at hj ⊢
      simp only [List.take_succ_cons, List.map_cons, List.sum_cons]
      unfold concatVal
      rw [if_neg (by omega)]
      have harith : F.index.length +
          ((rest.take k2).map (fun F => F.index.length)).sum + j -
          F.index.length =
          ((rest.take k2).map (fun F => F.index.length)).sum + j := by omega
      rw [harith]
      exact ih k2 hk2 hj

theorem firstIdx_mem {x : String} {xs : List String} (h : x ∈ xs) :
    firstIdx? x xs = some (idxOf x xs) := by
  unfold firstIdx?
  rw [if_pos (List.elem_iff.mpr h)]

theorem firstIdx_not_mem {x : String} {xs : List String} (h : x ∉ xs) :
    firstIdx? x xs = none := by
  unfold firstIdx?
  rw [if_neg (fun hc => h (List.elem_iff.mp hc))]

theorem specFrame_val_none (rmv : Bool) (sp : TargetSpec) (j : ℕ) {f : String}
    (h : f ∉ tgtFeats rmv sp) : (specFrame rmv sp).val j f = none := by
  unfold specFrame
  simp only []
  rw [firstIdx_not_mem h]
  rfl

theorem specFrame_val_mem (rmv : Bool) (sp : TargetSpec) (j : ℕ) {f : String}
    (h : f ∈ tgtFeats rmv sp) :
    (specFrame rmv sp).val j f =
      some (sp.ds.layer sp.layer
        ((dsRowIdx sp.ds sp.validRa).getD (idxOf f (tgtFeats rmv sp)) 0)
        ((tgtCols sp).getD j 0)) := by
  unfold specFrame
  simp only []
  rw [firstIdx_mem h]
  rfl

/-! ## Remaining generic helpers -/

theorem getD_map_lt {l : List α} {t : ℕ} (ht : t < l.length) (f : α → β)
    (d : β) (d0 : α) : (l.map f).getD t d = f (l.getD t d0) := by
  have htm : t < (l.map f).length := by simpa
  rw [List.getD_eq_getElem _ _ htm, List.getD_eq_getElem _ _ ht]
  simp

theorem getD_map_range {n i : ℕ} (hi : i < n) (g : ℕ → α) (d : α) :
    ((List.range n).map g).getD i d = g i := by
  have him : i < ((List.range n).map g).length := by simpa
  rw [List.getD_eq_getElem _ _ him]
  simp

/-- Decompose a flat position over a list of block lengths. -/
theorem sum_decompose (lens : List ℕ) (j : ℕ) (hj : j < lens.sum) :
    ∃ t j2, t < lens.length ∧ j2 < lens.getD t 0 ∧
      j = (lens.take t).sum + j2 := by
  induction lens generalizing j with
  | nil => simp at hj
  | cons a rest ih =>
    by_cases hja : j < a
    · exact ⟨0, j, by simp, by simpa using hja, by simp⟩
    · have hj2 : j - a < rest.sum := by
        simp only [List.sum_cons] at hj
        omega
      rcases ih (j - a) hj2 with ⟨t, j2, ht, hjt, hje⟩
      refine ⟨t + 1, j2, by simpa using ht, by simpa using hjt, ?_⟩
      simp only [List.take_succ_cons, List.sum_cons]
      omega

theorem processBatches_frozen (inDs : Dataset) (layer cellAttr : String)
    (label : Option String) (rowIdx ps : List ℕ) (outIds featIds : List String)
    (batches : List (List ℕ)) (apnd : Bool) (st : RunState)
    (h : st.err.isSome) :
    processBatches inDs layer cellAttr label rowIdx ps outIds featIds batches
      apnd st = st := by
  induction batches generalizing apnd with
  | nil => rfl
  | cons sel rest ih =>
    rw [processBatches]
    have hb : processBatch inDs layer cellAttr label rowIdx ps outIds featIds
        apnd sel st = st := by
      rcases he : st.err with _ | e
      · rw [he] at h
        simp at h
      · unfold processBatch
        rw [he]
    rw [hb]
    exact ih true

theorem specOK_reads {rmv : Bool} {accession : List String} {nRows : ℕ}
    {modSome : Bool} {sp : TargetSpec}
    (h : specOK rmv accession nRows modSome sp) : specReads sp :=
  ⟨h.1, h.2.1, h.2.2.1, h.2.2.2.1⟩

theorem mimic_list_conform {α : Type} (p : PyParam α) (n : ℕ)
    (h : conformShape p n) : mimic_list p n = .ok (match p with
      | .scalar a => List.replicate n a
      | .list xs => xs) := by
  cases p with
  | scalar a => rfl
  | list xs =>
    unfold conformShape at h
    simp [mimic_list, h]

theorem mimic_list_bad {α : Type} (p : PyParam α) (n : ℕ)
    (h : ¬ conformShape p n) : mimic_list p n = .error .parameterShape := by
  cases p with
  | scalar a => exact absurd trivial h
  | list xs =>
    have h2 : ¬ xs.length = n := h
    simp [mimic_list, h2]

/-! ## Claim C9 -/

/-- C9: the claim states that the full-memory engine writes a `Modality`
column attribute exactly when both the source and target labels are given,
and that giving only one label (or none) completes without error and simply
omits the attribute.  The guards at lines 234-237 and 319-322 of
`integration.py` show this intent, but line 316 executes
`type_dat = np.hstack(type_dat)` unconditionally while `type_dat` is only
assigned under `is_type`, so every run with `is_type` false raises
`UnboundLocalError` instead of completing.  This theorem evaluates the model:
with both labels the merge succeeds and writes `Modality`; with only the
source label, or with no labels at all, it raises the unbound-local error on
`type_dat`. -/
theorem C9_type_dat_unbound :
    (high_mem_integrate wSrc (.scalar wTgt) "" (.scalar "") "Accession"
      (.scalar "Accession") "CellID" (.scalar "CellID") (some "L1")
      (.scalar (some "L2")) none (.scalar none) none (.scalar none)
      false).map (fun out => out.modality) =
      .ok (some [some "L1", some "L1", some "L2"]) ∧
    high_mem_integrate wSrc (.scalar wTgt) "" (.scalar "") "Accession"
      (.scalar "Accession") "CellID" (.scalar "CellID") (some "L1")
      (.scalar none) none (.scalar none) none (.scalar none) false =
      .error (.unboundLocal "type_dat") ∧
    high_mem_integrate wSrc (.scalar wTgt) "" (.scalar "") "Accession"
      (.scalar "Accession") "CellID" (.scalar "CellID") none
      (.scalar none) none (.scalar none) none (.scalar none) false =
      .error (.unboundLocal "type_dat") := by
  refine ⟨?_, ?_, ?_⟩ <;> decide

/-! ## Claim C2 -/

/-- C2: the remap step keeps column indices and values, replaces every row
index through the alignment (the position of the row's identifier within the
canonical order), and declares shape `(outputRowCount, sameColumnCount)`.
The output row count equals the canonical feature count: the alignment
lookup only succeeds when the canonical identifiers all occur locally, so
with unique identifiers on both sides the two counts coincide. -/
theorem C2_remap_characterization (featIds outIds : List String)
    (ps : List ℕ) (chunk : SparseChunk) (hnf : featIds.Nodup)
    (hno : outIds.Nodup) (hsub : ∀ x ∈ featIds, x ∈ outIds)
    (hloc : locPositions featIds outIds = .ok ps)
    (hshape : chunk.nRows = featIds.length)
    (hrows : ∀ e ∈ chunk.entries, e.1 < chunk.nRows) :
    (remapChunk ps chunk).entries =
      chunk.entries.map (fun e =>
        (idxOf (featIds.getD e.1 "") outIds, e.2.1, e.2.2)) ∧
    (remapChunk ps chunk).nRows = outIds.length ∧
    (remapChunk ps chunk).nCols = chunk.nCols := by
  have hsub2 : ∀ x ∈ outIds, x ∈ featIds := by
    intro x hx
    by_contra hnx
    rw [locPositions_error hx hnx] at hloc
    cases hloc
  have hps : ps = outIds.map (fun x => idxOf x featIds) := by
    rw [locPositions_nodup hnf hsub2] at hloc
    exact (Except.ok.inj hloc).symm
  refine ⟨?_, ?_, rfl⟩
  · unfold remapChunk
    simp only []
    refine List.map_congr_left ?_
    intro e he
    have h1 : e.1 < featIds.length := by
      rw [← hshape]
      exact hrows e he
    have hm : featIds.getD e.1 "" ∈ outIds := hsub _ (getD_mem h1 "")
    rw [hps, dict_maps hnf hno hsub2 h1 hm]
  · show chunk.nRows = outIds.length
    rw [hshape]
    have hp : featIds.Perm outIds :=
      List.Subperm.perm_of_length_le (List.Nodup.subperm hnf hsub)
        (List.Subperm.length_le (List.Nodup.subperm hno hsub2))
    exact hp.length_eq

/-- Witness for C2 at the spec's own scenario: local features `[C, A]`
against canonical `[A, B, C]` is impossible (the lookup fails), so the
established instance uses local `[B, A]` against canonical `[A, B]` with
entries `(0,0)=5` and `(1,0)=7`. -/
theorem C2_witness :
    (remapChunk [1, 0]
      ⟨2, 1, [(0, 0, (5 : ℚ)), (1, 0, 7)]⟩).entries =
      ([(0, 0, (5 : ℚ)), (1, 0, 7)]).map (fun e =>
        (idxOf ((["B", "A"]).getD e.1 "") ["A", "B"], e.2.1, e.2.2)) ∧
    (remapChunk [1, 0]
      ⟨2, 1, [(0, 0, (5 : ℚ)), (1, 0, 7)]⟩).nRows = (["A", "B"]).length ∧
    (remapChunk [1, 0]
      ⟨2, 1, [(0, 0, (5 : ℚ)), (1, 0, 7)]⟩).nCols =
      (⟨2, 1, [(0, 0, (5 : ℚ)), (1, 0, 7)]⟩ : SparseChunk).nCols :=
  C2_remap_characterization ["B", "A"] ["A", "B"] [1, 0]
    ⟨2, 1, [(0, 0, (5 : ℚ)), (1, 0, 7)]⟩ (by decide) (by decide) (by decide)
    (by decide) (by decide) (by decide)

/-! ## Claim C10 -/

/-- C10: the streaming engine reads the canonical feature identifiers from
the row attribute literally named `Accession` — of the input dataset on a
creating call, of the output store on appending calls — no matter which
feature attribute the caller names.  Concretely: for every feature-attribute
name, on a creating call every post-first-batch cell of output row `i` holds
the layer value of the local row whose identifier (under the caller's
feature attribute) matches the `i`-th `Accession` identifier; on an
appending call, the `i`-th identifier of the store's `Accession` row
attribute. -/
theorem C10_canonical_from_accession (ds : Dataset)
    (layer featAttr cellAttr : String) (label : Option String)
    (vra vca : Option String) (rmv : Bool) (bs : ℕ) (sto : Option OutStore)
    (os : OutStore) (tr tr2 : List Bool) (rowIdx colIdx : List ℕ)
    (fr acc caVals : List String)
    (hvra : get_attr_index ds vra false = .ok rowIdx)
    (hvca : get_attr_index ds vca true = .ok colIdx)
    (hfr : ds.ra featAttr = some fr)
    (hacc : ds.ra "Accession" = some acc)
    (hca : ds.ca cellAttr = some caVals)
    (hcne : colIdx ≠ [])
    (hndA : (stripIf rmv (select acc rowIdx "")).Nodup)
    (hpermA : (stripIf rmv (select fr rowIdx "")).Perm
      (stripIf rmv (select acc rowIdx "")))
    (hndO : (stripIf rmv os.accession).Nodup)
    (hpermO : (stripIf rmv (select fr rowIdx "")).Perm
      (stripIf rmv os.accession))
    (hRo : rowIdx.length = os.nRows)
    (hlenO : (stripIf rmv os.accession).length = os.nRows)
    (hwf : StoreWF os)
    (hmod : os.modality.isSome = label.isSome) :
    (∃ (os2 : OutStore) (k : ℕ),
      low_mem_add_data ds layer featAttr cellAttr label vra vca rmv bs true
        ⟨sto, tr, none⟩ =
        ⟨some os2, tr ++ false :: List.replicate k true, none⟩ ∧
      ∀ i j, i < rowIdx.length → j < (colIdx.drop (max 1 bs)).length →
        sumValsRC os2.entries i ((colIdx.take (max 1 bs)).length + j) =
          ds.layer layer
            (rowIdx.getD (idxOf
              ((stripIf rmv (select acc rowIdx "")).getD i "")
              (stripIf rmv (select fr rowIdx ""))) 0)
            ((colIdx.drop (max 1 bs)).getD j 0)) ∧
    (∃ os3 : OutStore,
      low_mem_add_data ds layer featAttr cellAttr label vra vca rmv bs false
        ⟨some os, tr2, none⟩ =
        ⟨some os3, tr2 ++ List.replicate (chunkList bs colIdx).length true,
          none⟩ ∧
      ∀ i j, i < os.nRows → j < colIdx.length →
        sumValsRC os3.entries i (os.nCols + j) =
          ds.layer layer
            (rowIdx.getD (idxOf ((stripIf rmv os.accession).getD i "")
              (stripIf rmv (select fr rowIdx ""))) 0)
            (colIdx.getD j 0)) := by
  have hfl : (stripIf rmv (select fr rowIdx "")).length = rowIdx.length := by
    rw [length_stripIf, length_select]
  constructor
  · -- creating call
    have hndF : (stripIf rmv (select fr rowIdx "")).Nodup :=
      hpermA.nodup_iff.mpr hndA
    have hsubF : ∀ x ∈ stripIf rmv (select acc rowIdx ""),
        x ∈ stripIf rmv (select fr rowIdx "") :=
      fun x hx => hpermA.mem_iff.mpr hx
    rcases low_mem_add_data_genout_ok ds layer featAttr cellAttr label vra
        vca rmv bs sto tr rowIdx colIdx fr acc caVals _ hvra hvca hfr hacc
        hca (locPositions_nodup hndF hsubF) hcne with
      ⟨os2, k, hrun, _, _, _, _, _, _, _, _, hval2⟩
    refine ⟨os2, k, hrun, ?_⟩
    intro i j hi hj
    rw [hval2 i j hj]
    have hil : i < (stripIf rmv (select acc rowIdx "")).length := by
      rw [length_stripIf, length_select]
      exact hi
    exact aligned_single_survivor (stripIf rmv (select fr rowIdx ""))
      (stripIf rmv (select acc rowIdx "")) _ rfl hndA hpermA hil hfl
      (fun r => ds.layer layer (rowIdx.getD r 0)
        ((colIdx.drop (max 1 bs)).getD j 0))
  · -- appending call
    have hndF : (stripIf rmv (select fr rowIdx "")).Nodup :=
      hpermO.nodup_iff.mpr hndO
    have hsubF : ∀ x ∈ stripIf rmv os.accession,
        x ∈ stripIf rmv (select fr rowIdx "") :=
      fun x hx => hpermO.mem_iff.mpr hx
    rcases low_mem_add_data_append_ok ds layer featAttr cellAttr label vra
        vca rmv bs os tr2 rowIdx colIdx fr caVals _ hvra hvca hfr hca
        (locPositions_nodup hndF hsubF) hRo hwf hmod with
      ⟨os3, hrun, _, _, _, _, _, _, _, _, hvals⟩
    refine ⟨os3, hrun, ?_⟩
    intro i j hi hj
    rw [hvals i j hj]
    have hil : i < (stripIf rmv os.accession).length := by
      rw [hlenO]
      exact hi
    exact aligned_single_survivor (stripIf rmv (select fr rowIdx ""))
      (stripIf rmv os.accession) _ rfl hndO hpermO hil hfl
      (fun r => ds.layer layer (rowIdx.getD r 0) (colIdx.getD j 0))

/-- Witness for C10: a dataset whose `Gene` attribute lists the features in
the opposite order of its `Accession` attribute, streamed with
`feat_attr='Gene'` and batch size 1, plus an appending call against a store
whose `Accession` is `[A, B]`. -/
theorem C10_witness :
    (∃ (os2 : OutStore) (k : ℕ),
      low_mem_add_data wGene "" "Gene" "CellID" (some "L0") none none false 1
        true ⟨none, [], none⟩ =
        ⟨some os2, [] ++ false :: List.replicate k true, none⟩ ∧
      ∀ i j, i < ([0, 1] : List ℕ).length →
        j < (([0, 1] : List ℕ).drop (max 1 1)).length →
        sumValsRC os2.entries i ((([0, 1] : List ℕ).take (max 1 1)).length + j) =
          wGene.layer ""
            (([0, 1] : List ℕ).getD (idxOf
              ((stripIf false (select ["A", "B"] [0, 1] "")).getD i "")
              (stripIf false (select ["B", "A"] [0, 1] ""))) 0)
            ((([0, 1] : List ℕ).drop (max 1 1)).getD j 0)) ∧
    (∃ os3 : OutStore,
      low_mem_add_data wGene "" "Gene" "CellID" (some "L0") none none false 1
        false ⟨some wStore, [false], none⟩ =
        ⟨some os3, [false] ++ List.replicate (chunkList 1 [0, 1]).length true,
          none⟩ ∧
      ∀ i j, i < wStore.nRows → j < ([0, 1] : List ℕ).length →
        sumValsRC os3.entries i (wStore.nCols + j) =
          wGene.layer ""
            (([0, 1] : List ℕ).getD (idxOf
              ((stripIf false wStore.accession).getD i "")
              (stripIf false (select ["B", "A"] [0, 1] ""))) 0)
            (([0, 1] : List ℕ).getD j 0)) :=
  C10_canonical_from_accession wGene "" "Gene" "CellID" (some "L0") none none
    false 1 none wStore [] [false] [0, 1] [0, 1] ["B", "A"] ["A", "B"]
    ["g1", "g2"] (by decide) (by decide) (by decide) (by decide) (by decide)
    (by decide) (by decide) (by decide) (by decide) (by decide) (by decide)
    (by decide) (by decide) (by decide)

/-! ## Claim C7 -/

theorem bind_err_scf (e : IntError) (f : α → Except IntError β) :
    (Bind.bind (Except.error e) f) = Except.error e := rfl

theorem normalizeTargets_list_bad (tds : List Dataset) (layerT : PyParam String)
    (featT cellT : PyParam String) (labT vraT vcaT : PyParam (Option String))
    (h : ¬ (conformShape layerT tds.length ∧ conformShape featT tds.length ∧
      conformShape cellT tds.length ∧ conformShape labT tds.length ∧
      conformShape vraT tds.length ∧ conformShape vcaT tds.length)) :
    normalizeTargets (.list tds) layerT featT cellT labT vraT vcaT =
      .error .parameterShape := by
  by_cases h1 : conformShape layerT tds.length
  · by_cases h2 : conformShape featT tds.length
    · by_cases h3 : conformShape cellT tds.length
      · by_cases h4 : conformShape vraT tds.length
        · by_cases h5 : conformShape vcaT tds.length
          · by_cases h6 : conformShape labT tds.length
            · exact absurd ⟨h1, h2, h3, h6, h4, h5⟩ h
            · simp only [normalizeTargets, mimic_list_conform _ _ h1,
                mimic_list_conform _ _ h2, mimic_list_conform _ _ h3,
                mimic_list_conform _ _ h4, mimic_list_conform _ _ h5,
                mimic_list_bad _ _ h6, bind_ok_scf, bind_err_scf]
          · simp only [normalizeTargets, mimic_list_conform _ _ h1,
              mimic_list_conform _ _ h2, mimic_list_conform _ _ h3,
              mimic_list_conform _ _ h4, mimic_list_bad _ _ h5, bind_ok_scf,
              bind_err_scf]
        · simp only [normalizeTargets, mimic_list_conform _ _ h1,
            mimic_list_conform _ _ h2, mimic_list_conform _ _ h3,
            mimic_list_bad _ _ h4, bind_ok_scf, bind_err_scf]
      · simp only [normalizeTargets, mimic_list_conform _ _ h1,
          mimic_list_conform _ _ h2, mimic_list_bad _ _ h3, bind_ok_scf,
          bind_err_scf]
    · simp only [normalizeTargets, mimic_list_conform _ _ h1,
        mimic_list_bad _ _ h2, bind_ok_scf, bind_err_scf]
  · simp only [normalizeTargets, mimic_list_bad _ _ h1, bind_err_scf]

theorem normalizeTargets_list_good (tds : List Dataset)
    (layerT : PyParam String) (featT cellT : PyParam String)
    (labT vraT vcaT : PyParam (Option String))
    (h : conformShape layerT tds.length ∧ conformShape featT tds.length ∧
      conformShape cellT tds.length ∧ conformShape labT tds.length ∧
      conformShape vraT tds.length ∧ conformShape vcaT tds.length) :
    ∃ specs, normalizeTargets (.list tds) layerT featT cellT labT vraT vcaT =
      .ok specs := by
  rcases h with ⟨h1, h2, h3, h6, h4, h5⟩
  cases hres : normalizeTargets (.list tds) layerT featT cellT labT vraT vcaT with
  | ok specs => exact ⟨specs, rfl⟩
  | error e =>
    exfalso
    simp only [normalizeTargets, mimic_list_conform _ _ h1,
      mimic_list_conform _ _ h2, mimic_list_conform _ _ h3,
      mimic_list_conform _ _ h4, mimic_list_conform _ _ h5,
      mimic_list_conform _ _ h6, bind_ok_scf] at hres
    cases hres

/-- C7: with the targets given as a list, the input checking of both engines
accepts each per-target parameter exactly when it is a scalar (broadcast) or
a list of the target-list length, and any other shape makes both engines
fail with the parameter-shape error before any dataset or store access: the
streaming engine returns with no store, an empty write trace and the
parameter-shape error, and the full-memory engine returns the same error. -/
theorem C7_parameter_shapes (src : Dataset) (tds : List Dataset)
    (layerS : String) (layerT : PyParam String) (featS : String)
    (featT cellT : PyParam String) (cellS : String) (labS : Option String)
    (labT vraT vcaT : PyParam (Option String)) (vraS vcaS : Option String)
    (rmv : Bool) (bs : ℕ) :
    ((∃ specs, normalizeTargets (.list tds) layerT featT cellT labT vraT
        vcaT = .ok specs) ↔
      (conformShape layerT tds.length ∧ conformShape featT tds.length ∧
        conformShape cellT tds.length ∧ conformShape labT tds.length ∧
        conformShape vraT tds.length ∧ conformShape vcaT tds.length)) ∧
    (¬ (conformShape layerT tds.length ∧ conformShape featT tds.length ∧
        conformShape cellT tds.length ∧ conformShape labT tds.length ∧
        conformShape vraT tds.length ∧ conformShape vcaT tds.length) →
      low_mem_integrate src (.list tds) layerS layerT featS featT cellS cellT
        labS labT vraS vraT vcaS vcaT rmv bs =
        ⟨none, [], some .parameterShape⟩ ∧
      high_mem_integrate src (.list tds) layerS layerT featS featT cellS
        cellT labS labT vraS vraT vcaS vcaT rmv =
        .error .parameterShape) := by
  constructor
  · constructor
    · intro hok
      by_contra hbad
      rcases hok with ⟨specs, hspecs⟩
      rw [normalizeTargets_list_bad tds layerT featT cellT labT vraT vcaT
        hbad] at hspecs
      cases hspecs
    · exact normalizeTargets_list_good tds layerT featT cellT labT vraT vcaT
  · intro hbad
    have hn := normalizeTargets_list_bad tds layerT featT cellT labT vraT
      vcaT hbad
    constructor
    · simp only [low_mem_integrate, hn]
    · simp only [high_mem_integrate, hn, bind_err_scf]

/-- Witness for C7: one target but a two-element layer list makes both
engines fail with the parameter-shape error with no write performed. -/
theorem C7_witness :
    low_mem_integrate wSrc (.list [wTgt]) "" (.list ["", ""]) "Accession"
      (.scalar "Accession") "CellID" (.scalar "CellID") (some "L1")
      (.scalar (some "L2")) none (.scalar none) none (.scalar none) false
      5000 = ⟨none, [], some .parameterShape⟩ ∧
    high_mem_integrate wSrc (.list [wTgt]) "" (.list ["", ""]) "Accession"
      (.scalar "Accession") "CellID" (.scalar "CellID") (some "L1")
      (.scalar (some "L2")) none (.scalar none) none (.scalar none) false =
      .error .parameterShape :=
  (C7_parameter_shapes wSrc [wTgt] "" (.list ["", ""]) "Accession"
    (.scalar "Accession") (.scalar "CellID") "CellID" (some "L1")
    (.scalar (some "L2")) (.scalar none) (.scalar none) none none false
    5000).2 (by decide)

/-! ## Claim C8 -/

/-- C8: in a successful streaming merge the write trace consists of exactly
one creating write — the very first, produced by the source's first batch —
followed only by appends, across all later source batches and all target
datasets. -/
theorem C8_create_once (src : Dataset) (tgt : PyParam Dataset)
    (layerS : String) (layerT : PyParam String) (featS : String)
    (featT : PyParam String) (cellS : String) (cellT : PyParam String)
    (labS : Option String) (labT : PyParam (Option String))
    (vraS vcaS : Option String) (vraT vcaT : PyParam (Option String))
    (rmv : Bool) (bs : ℕ) (specs : List TargetSpec)
    (rowIdxS colIdxS : List ℕ) (fr acc caV : List String) (psS : List ℕ)
    (hnorm : normalizeTargets tgt layerT featT cellT labT vraT vcaT = .ok specs)
    (hvraS : get_attr_index src vraS false = .ok rowIdxS)
    (hvcaS : get_attr_index src vcaS true = .ok colIdxS)
    (hfrS : src.ra featS = some fr)
    (haccS : src.ra "Accession" = some acc)
    (hcaS : src.ca cellS = some caV)
    (hlocS : locPositions (stripIf rmv (select fr rowIdxS ""))
      (stripIf rmv (select acc rowIdxS "")) = .ok psS)
    (hcne : colIdxS ≠ [])
    (hall : ∀ sp ∈ specs, specOK rmv (stripIf rmv (select fr rowIdxS ""))
      rowIdxS.length labS.isSome sp) :
    ∃ (store : OutStore) (k : ℕ),
      low_mem_integrate src tgt layerS layerT featS featT cellS cellT labS
        labT vraS vraT vcaS vcaT rmv bs =
        ⟨some store, false :: List.replicate k true, none⟩ ∧
      (false :: List.replicate k true).count false = 1 ∧
      ∀ b ∈ List.replicate k true, b = true := by
  rcases low_mem_integrate_ok src tgt layerS layerT featS featT cellS cellT
      labS labT vraS vcaS vraT vcaT rmv bs specs rowIdxS colIdxS fr acc caV
      psS hnorm hvraS hvcaS hfrS haccS hcaS hlocS hcne hall with
    ⟨store, k, hrun, _⟩
  refine ⟨store, k, hrun, ?_, fun b hb => List.eq_of_mem_replicate hb⟩
  rw [List.count_cons_self, List.count_replicate]
  simp

/-- Witness for C8: source with two samples streamed at batch size 1 plus
one target; the trace is one create followed by appends only. -/
theorem C8_witness :
    ∃ (store : OutStore) (k : ℕ),
      low_mem_integrate wSrc (.scalar wTgt) "" (.scalar "") "Accession"
        (.scalar "Accession") "CellID" (.scalar "CellID") (some "L1")
        (.scalar (some "L2")) none (.scalar none) none (.scalar none) false
        1 = ⟨some store, false :: List.replicate k true, none⟩ ∧
      (false :: List.replicate k true).count false = 1 ∧
      ∀ b ∈ List.replicate k true, b = true :=
  C8_create_once wSrc (.scalar wTgt) "" (.scalar "") "Accession"
    (.scalar "Accession") "CellID" (.scalar "CellID") (some "L1")
    (.scalar (some "L2")) none none (.scalar none) (.scalar none) false 1
    [wTgtSp] [0, 1] [0, 1] ["A", "B"] ["A", "B"] ["s1", "s2"] [0, 1] rfl
    (by decide) (by decide) (by decide) (by decide) (by decide) (by decide)
    (by decide) (by decide)

/-! ## Claim C5 -/

theorem specReads_of_eqs {sp : TargetSpec} {rowIdx colIdx : List ℕ}
    {fr caV : List String}
    (hvra : get_attr_index sp.ds sp.validRa false = .ok rowIdx)
    (hvca : get_attr_index sp.ds sp.validCa true = .ok colIdx)
    (hfr : sp.ds.ra sp.featAttr = some fr)
    (hca : sp.ds.ca sp.cellAttr = some caV) : specReads sp := by
  refine ⟨?_, ?_, ?_, ?_⟩
  · rw [hvra]
    rfl
  · rw [hvca]
    rfl
  · rw [hfr]
    rfl
  · rw [hca]
    rfl

/-- C5: on valid inputs (each target's stripped identifiers occur among the
source's), both engines order the output rows by the source dataset's
validity-selected, version-stripped feature identifiers alone.  Since the
right-hand side mentions only the source, permuting or otherwise changing a
target's local feature ordering cannot change the output row order. -/
theorem C5_row_order_from_source (srcSp : TargetSpec) (tgt : PyParam Dataset)
    (layerT : PyParam String) (featT cellT : PyParam String)
    (labT : PyParam (Option String)) (vraT vcaT : PyParam (Option String))
    (rmv : Bool) (bs : ℕ) (specs : List TargetSpec)
    (rowIdxS colIdxS : List ℕ) (fr acc caV : List String) (psS : List ℕ)
    (hnorm : normalizeTargets tgt layerT featT cellT labT vraT vcaT = .ok specs)
    (hvraS : get_attr_index srcSp.ds srcSp.validRa false = .ok rowIdxS)
    (hvcaS : get_attr_index srcSp.ds srcSp.validCa true = .ok colIdxS)
    (hfrS : srcSp.ds.ra srcSp.featAttr = some fr)
    (haccS : srcSp.ds.ra "Accession" = some acc)
    (hcaS : srcSp.ds.ca srcSp.cellAttr = some caV)
    (hlocS : locPositions (stripIf rmv (select fr rowIdxS ""))
      (stripIf rmv (select acc rowIdxS "")) = .ok psS)
    (hcne : colIdxS ≠ [])
    (hall : ∀ sp ∈ specs, specOK rmv (stripIf rmv (select fr rowIdxS ""))
      rowIdxS.length srcSp.label.isSome sp)
    (hsub : ∀ sp ∈ specs, ∀ c ∈ tgtFeats rmv sp, c ∈ tgtFeats rmv srcSp)
    (hlabS : srcSp.label.isSome = true)
    (hlabT : labTargetGiven labT = true) :
    (∃ out, high_mem_integrate srcSp.ds tgt srcSp.layer layerT srcSp.featAttr
        featT srcSp.cellAttr cellT srcSp.label labT srcSp.validRa vraT
        srcSp.validCa vcaT rmv = .ok out ∧
      out.accession = dsFeatIds srcSp.ds srcSp.featAttr srcSp.validRa rmv) ∧
    (∃ (store : OutStore) (k : ℕ),
      low_mem_integrate srcSp.ds tgt srcSp.layer layerT srcSp.featAttr featT
        srcSp.cellAttr cellT srcSp.label labT srcSp.validRa vraT
        srcSp.validCa vcaT rmv bs =
        ⟨some store, false :: List.replicate k true, none⟩ ∧
      store.accession = dsFeatIds srcSp.ds srcSp.featAttr srcSp.validRa rmv) := by
  have hreads : specReads srcSp := specReads_of_eqs hvraS hvcaS hfrS hcaS
  have hfeatEq : dsFeatIds srcSp.ds srcSp.featAttr srcSp.validRa rmv =
      stripIf rmv (select fr rowIdxS "") := by
    unfold dsFeatIds dsRowIdx
    rw [exGetD_ok hvraS [], hfrS]
    rfl
  constructor
  · refine ⟨_, high_mem_integrate_ok srcSp tgt layerT featT cellT labT vraT
      vcaT rmv specs hnorm hreads
      (fun sp hsp => specOK_reads (hall sp hsp)) hlabS hlabT, ?_⟩
    show unionCols (specFrame rmv srcSp :: specs.map (specFrame rmv)) = _
    rw [unionCols_dominant (specFrame rmv srcSp) (specs.map (specFrame rmv))
      (by
        intro G hG c hc
        rcases List.mem_map.mp hG with ⟨sp, hsp, hGe⟩
        rw [← hGe] at hc
        exact hsub sp hsp c hc)]
    rfl
  · rcases low_mem_integrate_ok srcSp.ds tgt srcSp.layer layerT srcSp.featAttr
        featT srcSp.cellAttr cellT srcSp.label labT srcSp.validRa
        srcSp.validCa vraT vcaT rmv bs specs rowIdxS colIdxS fr acc caV psS
        hnorm hvraS hvcaS hfrS haccS hcaS hlocS hcne hall with
      ⟨store, k, hrun, _, hacc2, _⟩
    exact ⟨store, k, hrun, by rw [hacc2, hfeatEq]⟩

/-- Witness for C5 at the concrete source and permuted target. -/
theorem C5_witness :
    (∃ out, high_mem_integrate wSrcSp.ds (.scalar wTgt) wSrcSp.layer
        (.scalar "") wSrcSp.featAttr (.scalar "Accession") wSrcSp.cellAttr
        (.scalar "CellID") wSrcSp.label (.scalar (some "L2")) wSrcSp.validRa
        (.scalar none) wSrcSp.validCa (.scalar none) false = .ok out ∧
      out.accession = dsFeatIds wSrcSp.ds wSrcSp.featAttr wSrcSp.validRa false) ∧
    (∃ (store : OutStore) (k : ℕ),
      low_mem_integrate wSrcSp.ds (.scalar wTgt) wSrcSp.layer (.scalar "")
        wSrcSp.featAttr (.scalar "Accession") wSrcSp.cellAttr
        (.scalar "CellID") wSrcSp.label (.scalar (some "L2")) wSrcSp.validRa
        (.scalar none) wSrcSp.validCa (.scalar none) false 5000 =
        ⟨some store, false :: List.replicate k true, none⟩ ∧
      store.accession = dsFeatIds wSrcSp.ds wSrcSp.featAttr wSrcSp.validRa
        false) :=
  C5_row_order_from_source wSrcSp (.scalar wTgt) (.scalar "")
    (.scalar "Accession") (.scalar "CellID") (.scalar (some "L2"))
    (.scalar none) (.scalar none) false 5000 [wTgtSp] [0, 1] [0, 1]
    ["A", "B"] ["A", "B"] ["s1", "s2"] [0, 1] rfl (by decide) (by decide)
    (by decide) (by decide) (by decide) (by decide) (by decide) (by decide)
    (by decide) (by decide) (by decide)

/-! ## Claim C6 -/

/-- C6: in both engines the output's column-attribute arrays are the
concatenation, in arrival order, of the per-dataset arrays — the source's
samples first, then each target's in list order — with no deduplication,
reordering or merging of duplicate sample identifiers (the right-hand sides
are plain list concatenations of the per-dataset arrays as read). -/
theorem C6_column_attr_concat (srcSp : TargetSpec) (tgt : PyParam Dataset)
    (layerT : PyParam String) (featT cellT : PyParam String)
    (labT : PyParam (Option String)) (vraT vcaT : PyParam (Option String))
    (rmv : Bool) (bs : ℕ) (specs : List TargetSpec)
    (rowIdxS colIdxS : List ℕ) (fr acc caV : List String) (psS : List ℕ)
    (hnorm : normalizeTargets tgt layerT featT cellT labT vraT vcaT = .ok specs)
    (hvraS : get_attr_index srcSp.ds srcSp.validRa false = .ok rowIdxS)
    (hvcaS : get_attr_index srcSp.ds srcSp.validCa true = .ok colIdxS)
    (hfrS : srcSp.ds.ra srcSp.featAttr = some fr)
    (haccS : srcSp.ds.ra "Accession" = some acc)
    (hcaS : srcSp.ds.ca srcSp.cellAttr = some caV)
    (hlocS : locPositions (stripIf rmv (select fr rowIdxS ""))
      (stripIf rmv (select acc rowIdxS "")) = .ok psS)
    (hcne : colIdxS ≠ [])
    (hall : ∀ sp ∈ specs, specOK rmv (stripIf rmv (select fr rowIdxS ""))
      rowIdxS.length srcSp.label.isSome sp)
    (hlabS : srcSp.label.isSome = true)
    (hlabT : labTargetGiven labT = true) :
    (∃ out, high_mem_integrate srcSp.ds tgt srcSp.layer layerT srcSp.featAttr
        featT srcSp.cellAttr cellT srcSp.label labT srcSp.validRa vraT
        srcSp.validCa vcaT rmv = .ok out ∧
      out.cellId = tgtCells srcSp ++ (specs.map tgtCells).flatten ∧
      out.originalFile = List.replicate (tgtCols srcSp).length
          srcSp.ds.name ++
        (specs.map (fun sp =>
          List.replicate (tgtCols sp).length sp.ds.name)).flatten ∧
      out.modality = some
        (List.replicate (tgtCols srcSp).length srcSp.label ++
          (specs.map (fun sp =>
            List.replicate (tgtCols sp).length sp.label)).flatten)) ∧
    (∃ (store : OutStore) (k : ℕ),
      low_mem_integrate srcSp.ds tgt srcSp.layer layerT srcSp.featAttr featT
        srcSp.cellAttr cellT srcSp.label labT srcSp.validRa vraT
        srcSp.validCa vcaT rmv bs =
        ⟨some store, false :: List.replicate k true, none⟩ ∧
      store.cellId = tgtCells srcSp ++ (specs.map tgtCells).flatten ∧
      store.originalFile = List.replicate (tgtCols srcSp).length
          srcSp.ds.name ++
        (specs.map (fun sp =>
          List.replicate (tgtCols sp).length sp.ds.name)).flatten ∧
      store.modality = some
        (List.replicate (tgtCols srcSp).length
            (some (srcSp.label.getD "")) ++ modBlocks specs)) := by
  have hreads : specReads srcSp := specReads_of_eqs hvraS hvcaS hfrS hcaS
  have hcolEq : tgtCols srcSp = colIdxS := by
    unfold tgtCols dsColIdx
    exact exGetD_ok hvcaS []
  have hcellEq : tgtCells srcSp = select caV colIdxS "" := by
    unfold tgtCells dsCellIds dsColIdx
    rw [exGetD_ok hvcaS [], hcaS]
    rfl
  constructor
  · refine ⟨_, high_mem_integrate_ok srcSp tgt layerT featT cellT labT vraT
      vcaT rmv specs hnorm hreads
      (fun sp hsp => specOK_reads (hall sp hsp)) hlabS hlabT, ?_, rfl, rfl⟩
    show ((specFrame rmv srcSp :: specs.map (specFrame rmv)).map
      (fun F => F.index)).flatten = _
    rw [List.map_cons, List.flatten_cons, List.map_map]
    rfl
  · rcases low_mem_integrate_ok srcSp.ds tgt srcSp.layer layerT srcSp.featAttr
        featT srcSp.cellAttr cellT srcSp.label labT srcSp.validRa
        srcSp.validCa vraT vcaT rmv bs specs rowIdxS colIdxS fr acc caV psS
        hnorm hvraS hvcaS hfrS haccS hcaS hlocS hcne hall with
      ⟨store, k, hrun, _, _, _, hcell, hfile, hmod, _⟩
    rcases Option.isSome_iff_exists.mp hlabS with ⟨lS, hlS⟩
    refine ⟨store, k, hrun, ?_, ?_, ?_⟩
    · rw [hcell, hcellEq]
    · rw [hfile, hcolEq]
    · rw [hmod, hlS, hcolEq]
      simp only [Option.map_some', mergeMod, Option.getD_some]

/-- Witness for C6 at the concrete source and target. -/
theorem C6_witness :
    (∃ out, high_mem_integrate wSrcSp.ds (.scalar wTgt) wSrcSp.layer
        (.scalar "") wSrcSp.featAttr (.scalar "Accession") wSrcSp.cellAttr
        (.scalar "CellID") wSrcSp.label (.scalar (some "L2")) wSrcSp.validRa
        (.scalar none) wSrcSp.validCa (.scalar none) false = .ok out ∧
      out.cellId = tgtCells wSrcSp ++ ([wTgtSp].map tgtCells).flatten ∧
      out.originalFile = List.replicate (tgtCols wSrcSp).length
          wSrcSp.ds.name ++
        ([wTgtSp].map (fun sp =>
          List.replicate (tgtCols sp).length sp.ds.name)).flatten ∧
      out.modality = some
        (List.replicate (tgtCols wSrcSp).length wSrcSp.label ++
          ([wTgtSp].map (fun sp =>
            List.replicate (tgtCols sp).length sp.label)).flatten)) ∧
    (∃ (store : OutStore) (k : ℕ),
      low_mem_integrate wSrcSp.ds (.scalar wTgt) wSrcSp.layer (.scalar "")
        wSrcSp.featAttr (.scalar "Accession") wSrcSp.cellAttr
        (.scalar "CellID") wSrcSp.label (.scalar (some "L2")) wSrcSp.validRa
        (.scalar none) wSrcSp.validCa (.scalar none) false 5000 =
        ⟨some store, false :: List.replicate k true, none⟩ ∧
      store.cellId = tgtCells wSrcSp ++ ([wTgtSp].map tgtCells).flatten ∧
      store.originalFile = List.replicate (tgtCols wSrcSp).length
          wSrcSp.ds.name ++
        ([wTgtSp].map (fun sp =>
          List.replicate (tgtCols sp).length sp.ds.name)).flatten ∧
      store.modality = some
        (List.replicate (tgtCols wSrcSp).length
            (some (wSrcSp.label.getD "")) ++ modBlocks [wTgtSp])) :=
  C6_column_attr_concat wSrcSp (.scalar wTgt) (.scalar "")
    (.scalar "Accession") (.scalar "CellID") (.scalar (some "L2"))
    (.scalar none) (.scalar none) false 5000 [wTgtSp] [0, 1] [0, 1]
    ["A", "B"] ["A", "B"] ["s1", "s2"] [0, 1] rfl (by decide) (by decide)
    (by decide) (by decide) (by decide) (by decide) (by decide) (by decide)
    (by decide) (by decide)

/-! ## Claim C1 -/

/-- Counterexample to C1 as stated: merging the source (features `A`, `B`)
with a target that also has feature `X`, the full-memory engine succeeds and
the output's row 2 is `X`; its entry at column 0 — a source sample, whose
dataset lacks `X` — is `none` (pandas NaN from the outer join), not the
number zero. -/
theorem C1_counterexample :
    (high_mem_integrate wSrc (.scalar wTgtX) "" (.scalar "") "Accession"
      (.scalar "Accession") "CellID" (.scalar "CellID") (some "L1")
      (.scalar (some "L2")) none (.scalar none) none (.scalar none)
      false).map (fun out => (out.accession.getD 2 "",
        (out.matrix.getD 2 []).getD 0 (some 0))) = .ok ("X", none) ∧
    (Except.ok ("X", (none : Option ℚ)) : Except IntError (String × Option ℚ))
      ≠ .ok ("X", some 0) := by
  constructor
  · decide
  · decide

theorem fs_getD_specFrame (rmv : Bool) (sps : List TargetSpec) {k : ℕ}
    (hk : k < sps.length) :
    (sps.map (specFrame rmv)).getD k emptyFrame =
      specFrame rmv (sps.getD k dfltSpec) := by
  have hkm : k < (sps.map (specFrame rmv)).length := by simpa
  rw [List.getD_eq_getElem _ _ hkm, List.getD_eq_getElem _ _ hk]
  exact List.getElem_map (specFrame rmv)

/-- C1 (amended): in the full-memory merge, an output entry whose feature is
absent from the dataset a column belongs to is NaN (`none`), not the number
zero: for any block `k` of the concatenation, any sample `j` of that block
and any output row `i` whose identifier is not among block `k`'s stripped
feature identifiers, the matrix entry at that (row, column) is `none`. -/
theorem C1_absent_features_nan (srcSp : TargetSpec) (tgt : PyParam Dataset)
    (layerT : PyParam String) (featT cellT : PyParam String)
    (labT : PyParam (Option String)) (vraT vcaT : PyParam (Option String))
    (rmv : Bool) (specs : List TargetSpec)
    (hnorm : normalizeTargets tgt layerT featT cellT labT vraT vcaT = .ok specs)
    (hsrc : specReads srcSp) (htgt : ∀ sp ∈ specs, specReads sp)
    (hlabS : srcSp.label.isSome = true)
    (hlabT : labTargetGiven labT = true)
    (k j i : ℕ) (hk : k < (srcSp :: specs).length)
    (hj : j < (tgtCells ((srcSp :: specs).getD k dfltSpec)).length)
    (hi : i < (unionCols ((srcSp :: specs).map (specFrame rmv))).length)
    (hf : (unionCols ((srcSp :: specs).map (specFrame rmv))).getD i "" ∉
      tgtFeats rmv ((srcSp :: specs).getD k dfltSpec)) :
    ∃ out, high_mem_integrate srcSp.ds tgt srcSp.layer layerT srcSp.featAttr
        featT srcSp.cellAttr cellT srcSp.label labT srcSp.validRa vraT
        srcSp.validCa vcaT rmv = .ok out ∧
      (out.matrix.getD i []).getD
        ((((srcSp :: specs).take k).map
          (fun sp => (tgtCells sp).length)).sum + j) (some 0) = none := by
  refine ⟨_, high_mem_integrate_ok srcSp tgt layerT featT cellT labT vraT
    vcaT rmv specs hnorm hsrc htgt hlabS hlabT, ?_⟩
  have hkm : k < ((srcSp :: specs).map (specFrame rmv)).length := by simpa
  have hgetfs : ((srcSp :: specs).map (specFrame rmv)).getD k emptyFrame =
      specFrame rmv ((srcSp :: specs).getD k dfltSpec) :=
    fs_getD_specFrame rmv _ hk
  have hj2 : j < (((srcSp :: specs).map (specFrame rmv)).getD k
      emptyFrame).index.length := by
    rw [hgetfs]
    exact hj
  have hoff : (((srcSp :: specs).map (specFrame rmv)).take k).map
      (fun F => F.index.length) =
      ((srcSp :: specs).take k).map (fun sp => (tgtCells sp).length) := by
    rw [← List.map_take, List.map_map]
    rfl
  have hflatlen : (((srcSp :: specs).map (specFrame rmv)).map
      (fun F => F.index)).flatten.length =
      ((srcSp :: specs).map (fun sp => (tgtCells sp).length)).sum := by
    rw [List.length_flatten, List.map_map, List.map_map]
    rfl
  have hkl : k < ((srcSp :: specs).map
      (fun sp => (tgtCells sp).length)).length := by simpa using hk
  have hnth : ((srcSp :: specs).map (fun sp => (tgtCells sp).length)).getD
      k 0 = (tgtCells ((srcSp :: specs).getD k dfltSpec)).length := by
    rw [List.getD_eq_getElem _ _ hkl, List.getD_eq_getElem _ _ hk]
    exact List.getElem_map _
  have hcb : (((srcSp :: specs).take k).map
      (fun sp => (tgtCells sp).length)).sum + j <
      (((srcSp :: specs).map (specFrame rmv)).map
        (fun F => F.index)).flatten.length := by
    rw [hflatlen, ← List.sum_take_add_sum_drop
      ((srcSp :: specs).map (fun sp => (tgtCells sp).length)) k,
      ← List.map_take]
    have hdrop := List.drop_eq_getElem_cons hkl
    rw [hdrop, List.sum_cons, ← List.getD_eq_getElem _ 0 hkl, hnth]
    omega
  show (((List.range (unionCols ((srcSp :: specs).map
        (specFrame rmv))).length).map (fun i2 =>
      (List.range ((((srcSp :: specs).map (specFrame rmv)).map
          (fun F => F.index)).flatten.length)).map (fun j2 =>
        concatVal ((srcSp :: specs).map (specFrame rmv)) j2
          ((unionCols ((srcSp :: specs).map
            (specFrame rmv))).getD i2 "")))).getD i []).getD
    ((((srcSp :: specs).take k).map
      (fun sp => (tgtCells sp).length)).sum + j) (some 0) = none
  rw [getD_map_range hi, getD_map_range hcb, ← hoff,
    concatVal_at _ k hkm j hj2, hgetfs]
  exact specFrame_val_none rmv _ j hf

/-! ## Claim C4 -/

/-- Counterexample to C4 as stated: the target `wTgtSub` holds the strict
subset `[A]` of the source's stripped features `[A, B]` — the claim's
premise — yet the streaming engine fails with a pandas `KeyError` on the
canonical identifier `B` missing from the target, while the full-memory
engine completes, so the engines do not produce identical outputs for this
subset input. -/
theorem C4_counterexample :
    (∀ c ∈ tgtFeats false ⟨wTgtSub, "", "Accession", "CellID", some "L2",
      none, none⟩, c ∈ tgtFeats false wSrcSp) ∧
    (low_mem_integrate wSrc (.scalar wTgtSub) "" (.scalar "") "Accession"
      (.scalar "Accession") "CellID" (.scalar "CellID") (some "L1")
      (.scalar (some "L2")) none (.scalar none) none (.scalar none)
      false 5000).err = some (.keyError ["B"]) ∧
    exIsOk (high_mem_integrate wSrc (.scalar wTgtSub) "" (.scalar "")
      "Accession" (.scalar "Accession") "CellID" (.scalar "CellID")
      (some "L1") (.scalar (some "L2")) none (.scalar none) none
      (.scalar none) false) = true := by
  refine ⟨?_, ?_, ?_⟩ <;> decide

theorem getD_map_lens (g : TargetSpec → ℕ) (l : List TargetSpec) {m : ℕ}
    (hm : m < l.length) : (l.map g).getD m 0 = g (l.getD m dfltSpec) := by
  have hml : m < (l.map g).length := by simpa
  rw [List.getD_eq_getElem _ _ hml, List.getD_eq_getElem _ _ hm]
  exact List.getElem_map g

/-- C4 (amended): the two engines agree — same success, same row and column
attributes, and the same value at every (feature, sample) coordinate, with
the streaming values wrapped in `some` — when every target's stripped
feature multiset is a permutation of the source's (not merely a subset),
the stripped source identifiers are duplicate-free and stable under a
second strip, and the caller-supplied feature attribute of the source
carries the same content as its `Accession` attribute. -/
theorem C4_engine_equivalence (srcSp : TargetSpec) (tgt : PyParam Dataset)
    (layerT : PyParam String) (featT cellT : PyParam String)
    (labT : PyParam (Option String)) (vraT vcaT : PyParam (Option String))
    (rmv : Bool) (bs : ℕ) (specs : List TargetSpec)
    (rowIdxS colIdxS : List ℕ) (fr caV : List String)
    (hnorm : normalizeTargets tgt layerT featT cellT labT vraT vcaT = .ok specs)
    (hvraS : get_attr_index srcSp.ds srcSp.validRa false = .ok rowIdxS)
    (hvcaS : get_attr_index srcSp.ds srcSp.validCa true = .ok colIdxS)
    (hfrS : srcSp.ds.ra srcSp.featAttr = some fr)
    (haccS : srcSp.ds.ra "Accession" = some fr)
    (hcaS : srcSp.ds.ca srcSp.cellAttr = some caV)
    (hcne : colIdxS ≠ [])
    (hnd : (stripIf rmv (select fr rowIdxS "")).Nodup)
    (hstab : stripIf rmv (stripIf rmv (select fr rowIdxS "")) =
      stripIf rmv (select fr rowIdxS ""))
    (hall : ∀ sp ∈ specs, specOK rmv (stripIf rmv (select fr rowIdxS ""))
      rowIdxS.length srcSp.label.isSome sp)
    (halign : ∀ sp ∈ specs, specAligned rmv
      (stripIf rmv (select fr rowIdxS "")) sp)
    (hlabS : srcSp.label.isSome = true)
    (hlabT : labTargetGiven labT = true) :
    ∃ (out : LoomOutput) (store : OutStore) (k : ℕ),
      high_mem_integrate srcSp.ds tgt srcSp.layer layerT srcSp.featAttr featT
        srcSp.cellAttr cellT srcSp.label labT srcSp.validRa vraT
        srcSp.validCa vcaT rmv = .ok out ∧
      low_mem_integrate srcSp.ds tgt srcSp.layer layerT srcSp.featAttr featT
        srcSp.cellAttr cellT srcSp.label labT srcSp.validRa vraT
        srcSp.validCa vcaT rmv bs =
        ⟨some store, false :: List.replicate k true, none⟩ ∧
      out.accession = store.accession ∧
      out.cellId = store.cellId ∧
      out.originalFile = store.originalFile ∧
      out.matrix = (storeMatrix store).map (fun row => row.map some) := by
  have hreads : specReads srcSp := specReads_of_eqs hvraS hvcaS hfrS hcaS
  have hsrcfeats : tgtFeats rmv srcSp = stripIf rmv (select fr rowIdxS "") := by
    unfold tgtFeats dsFeatIds dsRowIdx
    rw [exGetD_ok hvraS [], hfrS]
    rfl
  have hsrccols : tgtCols srcSp = colIdxS := by
    unfold tgtCols dsColIdx
    exact exGetD_ok hvcaS []
  have hsrccells : tgtCells srcSp = select caV colIdxS "" := by
    unfold tgtCells dsCellIds dsColIdx
    rw [exGetD_ok hvcaS [], hcaS]
    rfl
  have hdr : dsRowIdx srcSp.ds srcSp.validRa = rowIdxS := by
    unfold dsRowIdx
    exact exGetD_ok hvraS []
  have hcanlen : (stripIf rmv (select fr rowIdxS "")).length =
      rowIdxS.length := by
    rw [length_stripIf, length_select]
  have htc : ∀ sp : TargetSpec, (tgtCells sp).length = (tgtCols sp).length :=
    fun sp => by
      show (select _ (dsColIdx sp.ds sp.validCa) "").length = _
      rw [length_select]
      rfl
  have hsubcols : ∀ G ∈ specs.map (specFrame rmv), ∀ c ∈ G.columns,
      c ∈ (specFrame rmv srcSp).columns := by
    intro G hG c hc
    rcases List.mem_map.mp hG with ⟨sp, hsp, hGe⟩
    rw [← hGe] at hc
    have hperm := halign sp hsp
    unfold specAligned at hperm
    rw [hstab] at hperm
    show c ∈ tgtFeats rmv srcSp
    rw [hsrcfeats]
    exact hperm.mem_iff.mp hc
  have huc2 : unionCols ((srcSp :: specs).map (specFrame rmv)) =
      stripIf rmv (select fr rowIdxS "") := by
    show unionCols (specFrame rmv srcSp :: specs.map (specFrame rmv)) = _
    rw [unionCols_dominant _ _ hsubcols]
    exact hsrcfeats
  have hhigh := high_mem_integrate_ok srcSp tgt layerT featT cellT labT vraT
    vcaT rmv specs hnorm hreads (fun sp hsp => specOK_reads (hall sp hsp))
    hlabS hlabT
  rcases low_mem_integrate_aligned srcSp.ds tgt srcSp.layer layerT
      srcSp.featAttr featT srcSp.cellAttr cellT srcSp.label labT
      srcSp.validRa srcSp.validCa vraT vcaT rmv bs specs rowIdxS colIdxS fr
      caV hnorm hvraS hvcaS hfrS haccS hcaS hcne hnd hstab hall halign with
    ⟨store, k, hrun, hrows, hacc, hcols, hcell, hfile, _, _, hsrcvals,
      htgtvals⟩
  have hflat : (((srcSp :: specs).map (specFrame rmv)).map
      (fun F => F.index)).flatten.length =
      ((srcSp :: specs).map (fun sp => (tgtCells sp).length)).sum := by
    rw [List.length_flatten, List.map_map, List.map_map]
    rfl
  have hcellcols : ((srcSp :: specs).map (fun sp => (tgtCells sp).length)) =
      ((srcSp :: specs).map (fun sp => (tgtCols sp).length)) :=
    List.map_congr_left (fun sp _ => htc sp)
  have hMeq : (((srcSp :: specs).map (specFrame rmv)).map
      (fun F => F.index)).flatten.length = store.nCols := by
    rw [hflat, hcellcols]
    simp only [List.map_cons, List.sum_cons]
    rw [hsrccols, hcols]
  have hNR : (stripIf rmv (select fr rowIdxS "")).length = store.nRows := by
    rw [hcanlen, hrows]
  have hofft : ∀ m : ℕ, (((srcSp :: specs).map (specFrame rmv)).take m).map
      (fun F => F.index.length) =
      ((srcSp :: specs).take m).map (fun sp => (tgtCols sp).length) := by
    intro m
    rw [← List.map_take, List.map_map]
    exact List.map_congr_left (fun sp _ => htc sp)
  have htake : ∀ m : ℕ, ((((srcSp :: specs).map
      (fun sp => (tgtCols sp).length)).take m)).sum =
      ((((srcSp :: specs).map (specFrame rmv)).take m).map
        (fun F => F.index.length)).sum := by
    intro m
    rw [hofft m, ← List.map_take]
  refine ⟨_, store, k, hhigh, hrun, ?_, ?_, ?_, ?_⟩
  · show unionCols ((srcSp :: specs).map (specFrame rmv)) = store.accession
    rw [huc2, hacc]
  · show tgtCells srcSp ++ ((specs.map (specFrame rmv)).map
      (fun F => F.index)).flatten = store.cellId
    rw [hcell, hsrccells, List.map_map]
    rfl
  · show List.replicate (tgtCols srcSp).length srcSp.ds.name ++
      (specs.map (fun sp =>
        List.replicate (tgtCols sp).length sp.ds.name)).flatten =
      store.originalFile
    rw [hfile, hsrccols]
  · show (List.range (unionCols ((srcSp :: specs).map
        (specFrame rmv))).length).map (fun i2 =>
      (List.range ((((srcSp :: specs).map (specFrame rmv)).map
          (fun F => F.index)).flatten.length)).map (fun j2 =>
        concatVal ((srcSp :: specs).map (specFrame rmv)) j2
          ((unionCols ((srcSp :: specs).map (specFrame rmv))).getD i2 ""))) =
      (storeMatrix store).map (fun row => row.map some)
    have hsm : (storeMatrix store).map (fun row => row.map some) =
        (List.range store.nRows).map (fun i =>
          (List.range store.nCols).map (fun j =>
            some (sumValsRC store.entries i j))) := by
      unfold storeMatrix
      rw [List.map_map]
      apply List.map_congr_left
      intro i _
      simp only [Function.comp]
      rw [List.map_map]
      rfl
    rw [hsm, huc2, ← hNR, ← hMeq]
    apply List.map_congr_left
    intro i hi0
    have hi : i < (stripIf rmv (select fr rowIdxS "")).length :=
      List.mem_range.mp hi0
    have hird : i < rowIdxS.length := hcanlen ▸ hi
    have hfimem : (stripIf rmv (select fr rowIdxS "")).getD i "" ∈
        stripIf rmv (select fr rowIdxS "") := by
      rw [List.getD_eq_getElem _ _ hi]
      exact List.getElem_mem hi
    show (List.range ((((srcSp :: specs).map (specFrame rmv)).map
        (fun F => F.index)).flatten.length)).map (fun j2 =>
        concatVal ((srcSp :: specs).map (specFrame rmv)) j2
          ((stripIf rmv (select fr rowIdxS "")).getD i "")) =
      (List.range ((((srcSp :: specs).map (specFrame rmv)).map
        (fun F => F.index)).flatten.length)).map (fun j =>
        some (sumValsRC store.entries i j))
    apply List.map_congr_left
    intro j hj0
    have hj : j < (((srcSp :: specs).map (specFrame rmv)).map
        (fun F => F.index)).flatten.length := List.mem_range.mp hj0
    show concatVal ((srcSp :: specs).map (specFrame rmv)) j
        ((stripIf rmv (select fr rowIdxS "")).getD i "") =
      some (sumValsRC store.entries i j)
    have hjsum : j < ((srcSp :: specs).map
        (fun sp => (tgtCols sp).length)).sum := by
      rw [← hcellcols, ← hflat]
      exact hj
    rcases sum_decompose _ j hjsum with ⟨t, j2, ht, hj2, hje⟩
    have htsl : t < (srcSp :: specs).length := by simpa using ht
    have htl : t < ((srcSp :: specs).map (specFrame rmv)).length := by
      simpa using ht
    have hj2g : j2 < (tgtCols ((srcSp :: specs).getD t dfltSpec)).length := by
      rw [← getD_map_lens (fun sp => (tgtCols sp).length) _ htsl]
      exact hj2
    have hj2f : j2 < (((srcSp :: specs).map (specFrame rmv)).getD t
        emptyFrame).index.length := by
      rw [fs_getD_specFrame rmv _ htsl]
      show j2 < (tgtCells ((srcSp :: specs).getD t dfltSpec)).length
      rw [htc _]
      exact hj2g
    have hL : concatVal ((srcSp :: specs).map (specFrame rmv)) j
        ((stripIf rmv (select fr rowIdxS "")).getD i "") =
        (specFrame rmv ((srcSp :: specs).getD t dfltSpec)).val j2
          ((stripIf rmv (select fr rowIdxS "")).getD i "") := by
      rw [hje, htake t, concatVal_at _ t htl j2 hj2f _,
        fs_getD_specFrame rmv _ htsl]
    rw [hL]
    cases t with
    | zero =>
      have hj2c : j2 < colIdxS.length := by
        have hj2s : j2 < (tgtCols srcSp).length := hj2g
        rw [hsrccols] at hj2s
        exact hj2s
      have hj' : j = j2 := by simpa using hje
      rw [hj', hsrcvals i j2 hird hj2c]
      have hfmem0 : (stripIf rmv (select fr rowIdxS "")).getD i "" ∈
          tgtFeats rmv ((srcSp :: specs).getD 0 dfltSpec) := by
        show _ ∈ tgtFeats rmv srcSp
        rw [hsrcfeats]
        exact hfimem
      rw [specFrame_val_mem rmv _ j2 hfmem0]
      show some (srcSp.ds.layer srcSp.layer
        ((dsRowIdx srcSp.ds srcSp.validRa).getD
          (idxOf ((stripIf rmv (select fr rowIdxS "")).getD i "")
            (tgtFeats rmv srcSp)) 0)
        ((tgtCols srcSp).getD j2 0)) = _
      rw [hsrcfeats, idxOf_getD hnd hi "", hdr, hsrccols]
    | succ t2 =>
      have htsl2 : t2 < specs.length := by simpa using ht
      have hspmem : specs.getD t2 dfltSpec ∈ specs := by
        rw [List.getD_eq_getElem _ _ htsl2]
        exact List.getElem_mem htsl2
      have hj2t : j2 < (tgtCols (specs.getD t2 dfltSpec)).length := hj2g
      have harith : (((srcSp :: specs).map
          (fun sp => (tgtCols sp).length)).take (t2 + 1)).sum =
          colIdxS.length +
            ((specs.take t2).map (fun sp => (tgtCols sp).length)).sum := by
        simp only [List.map_cons, List.take_succ_cons, List.sum_cons]
        rw [hsrccols, ← List.map_take]
      rw [hje, harith, htgtvals t2 i j2 htsl2 hird hj2t]
      have hfmem1 : (stripIf rmv (select fr rowIdxS "")).getD i "" ∈
          tgtFeats rmv ((srcSp :: specs).getD (t2 + 1) dfltSpec) := by
        show _ ∈ tgtFeats rmv (specs.getD t2 dfltSpec)
        have hperm := halign _ hspmem
        unfold specAligned at hperm
        rw [hstab] at hperm
        exact hperm.mem_iff.mpr hfimem
      rw [specFrame_val_mem rmv _ j2 hfmem1]
      show some ((specs.getD t2 dfltSpec).ds.layer
        (specs.getD t2 dfltSpec).layer
        ((dsRowIdx (specs.getD t2 dfltSpec).ds
            (specs.getD t2 dfltSpec).validRa).getD
          (idxOf ((stripIf rmv (select fr rowIdxS "")).getD i "")
            (tgtFeats rmv (specs.getD t2 dfltSpec))) 0)
        ((tgtCols (specs.getD t2 dfltSpec)).getD j2 0)) = _
      unfold alignedVal
      rw [hstab]

/-- Witness for C4's amended statement: source `wSrc` and the
feature-permuted target `wTgt`, streamed at batch size 1. -/
theorem C4_witness :
    ∃ (out : LoomOutput) (store : OutStore) (k : ℕ),
      high_mem_integrate wSrcSp.ds (.scalar wTgt) wSrcSp.layer (.scalar "")
        wSrcSp.featAttr (.scalar "Accession") wSrcSp.cellAttr
        (.scalar "CellID") wSrcSp.label (.scalar (some "L2")) wSrcSp.validRa
        (.scalar none) wSrcSp.validCa (.scalar none) false = .ok out ∧
      low_mem_integrate wSrcSp.ds (.scalar wTgt) wSrcSp.layer (.scalar "")
        wSrcSp.featAttr (.scalar "Accession") wSrcSp.cellAttr
        (.scalar "CellID") wSrcSp.label (.scalar (some "L2")) wSrcSp.validRa
        (.scalar none) wSrcSp.validCa (.scalar none) false 1 =
        ⟨some store, false :: List.replicate k true, none⟩ ∧
      out.accession = store.accession ∧
      out.cellId = store.cellId ∧
      out.originalFile = store.originalFile ∧
      out.matrix = (storeMatrix store).map (fun row => row.map some) :=
  C4_engine_equivalence wSrcSp (.scalar wTgt) (.scalar "")
    (.scalar "Accession") (.scalar "CellID") (.scalar (some "L2"))
    (.scalar none) (.scalar none) false 1 [wTgtSp] [0, 1] [0, 1]
    ["A", "B"] ["s1", "s2"] rfl (by decide) (by decide) (by decide)
    (by decide) (by decide) (by decide) (by decide) (by decide) (by decide)
    (by decide) (by decide) (by decide)

/-! ## Claim C3 -/

/-- Counterexample to C3 as stated: the target `wTgtX` carries feature `X`,
absent from the canonical order `[A, B]`.  The streaming merge does fail
before writing anything for that dataset (the trace keeps only the source's
creating write), but the error is the loompy shape mismatch
`(2 rows vs 3 rows)` raised by the append — not a `FeatureAlignmentError`
naming `X`: no such error class exists anywhere in `integration.py`. -/
theorem C3_counterexample :
    (low_mem_integrate wSrc (.scalar wTgtX) "" (.scalar "") "Accession"
      (.scalar "Accession") "CellID" (.scalar "CellID") (some "L1")
      (.scalar (some "L2")) none (.scalar none) none (.scalar none)
      false 5000).err = some (.schemaMismatch 2 3) ∧
    (low_mem_integrate wSrc (.scalar wTgtX) "" (.scalar "") "Accession"
      (.scalar "Accession") "CellID" (.scalar "CellID") (some "L1")
      (.scalar (some "L2")) none (.scalar none) none (.scalar none)
      false 5000).trace = [false] ∧
    some (IntError.schemaMismatch 2 3) ≠
      some (IntError.featureAlignment ["X"]) := by
  refine ⟨?_, ?_, ?_⟩
  · decide
  · decide
  · decide

/-- C3 (amended): appending a target that carries a stripped feature
identifier absent from the output store's canonical order leaves the store
and the write trace unchanged (no output write for that dataset) and raises
either the pandas `KeyError` listing the canonical identifiers missing from
the target (when some canonical identifier is also missing locally) or the
loompy row-count mismatch (otherwise) — never a `FeatureAlignmentError`. -/
theorem C3_unmatched_feature_fails (inDs : Dataset)
    (layer featAttr cellAttr : String) (label : Option String)
    (vra vca : Option String) (rmv : Bool) (bs : ℕ) (os : OutStore)
    (tr : List Bool) (rowIdx colIdx : List ℕ) (fr : List String)
    (caVals : List String) (x : String)
    (hvra : get_attr_index inDs vra false = .ok rowIdx)
    (hvca : get_attr_index inDs vca true = .ok colIdx)
    (hfr : inDs.ra featAttr = some fr)
    (hca : inDs.ca cellAttr = some caVals)
    (hx : x ∈ stripIf rmv (select fr rowIdx ""))
    (hnx : x ∉ stripIf rmv os.accession)
    (hcne : colIdx ≠ [])
    (hlen : os.accession.length = os.nRows)
    (hnd : (stripIf rmv os.accession).Nodup) :
    ∃ e, low_mem_add_data inDs layer featAttr cellAttr label vra vca rmv bs
        false ⟨some os, tr, none⟩ = ⟨some os, tr, some e⟩ ∧
      (e = .keyError ((stripIf rmv os.accession).filter
          (fun y => ¬ (stripIf rmv (select fr rowIdx "")).contains y)) ∨
        e = .schemaMismatch os.nRows rowIdx.length) ∧
      ∀ ids, e ≠ .featureAlignment ids := by
  by_cases hsub : ∀ y ∈ stripIf rmv os.accession,
      y ∈ stripIf rmv (select fr rowIdx "")
  · -- every canonical identifier occurs locally: the lookup succeeds and the
    -- first appended batch fails the loompy row-count check
    have hfe : (stripIf rmv os.accession).filter
        (fun y => ¬ (stripIf rmv (select fr rowIdx "")).contains y) = [] := by
      rw [List.filter_eq_nil_iff]
      intro y hy
      simp [hsub y hy]
    have hloc : locPositions (stripIf rmv (select fr rowIdx ""))
        (stripIf rmv os.accession) =
        .ok ((stripIf rmv os.accession).flatMap
          (fun y => positionsOf y (stripIf rmv (select fr rowIdx "")))) := by
      unfold locPositions
      rw [hfe]
      rfl
    have hred : low_mem_add_data inDs layer featAttr cellAttr label vra vca
        rmv bs false ⟨some os, tr, none⟩ =
        processBatches inDs layer cellAttr label rowIdx
          ((stripIf rmv os.accession).flatMap
            (fun y => positionsOf y (stripIf rmv (select fr rowIdx ""))))
          (stripIf rmv os.accession) (stripIf rmv (select fr rowIdx ""))
          (chunkList bs colIdx) true ⟨some os, tr, none⟩ := by
      simp only [low_mem_add_data, lowMemOutIds, getRa, hvra, hvca, hfr, hloc,
        Bool.false_eq_true, if_false, bind_ok_scf, bind_pure_scf]
      rfl
    have hfl : (stripIf rmv (select fr rowIdx "")).length = rowIdx.length := by
      cases rmv <;> simp [stripIf, select]
    have hol : (stripIf rmv os.accession).length = os.accession.length := by
      cases rmv <;> simp [stripIf]
    have hndx : (x :: stripIf rmv os.accession).Nodup :=
      List.nodup_cons.mpr ⟨hnx, hnd⟩
    have hsub2 : x :: stripIf rmv os.accession ⊆
        stripIf rmv (select fr rowIdx "") := by
      intro y hy
      rcases List.mem_cons.mp hy with hy1 | hy2
      · rw [hy1]
        exact hx
      · exact hsub y hy2
    have hle := (List.Nodup.subperm hndx hsub2).length_le
    have hne : (remapChunk ((stripIf rmv os.accession).flatMap
        (fun y => positionsOf y (stripIf rmv (select fr rowIdx ""))))
        (sparseSlice inDs layer rowIdx (colIdx.take (max 1 bs)))).nRows ≠
        os.nRows := by
      show rowIdx.length ≠ os.nRows
      simp only [List.length_cons] at hle
      omega
    have hbas : ∀ attrs : ColAttrs, batch_add_sparse (some os)
        (remapChunk ((stripIf rmv os.accession).flatMap
          (fun y => positionsOf y (stripIf rmv (select fr rowIdx ""))))
          (sparseSlice inDs layer rowIdx (colIdx.take (max 1 bs))))
        (stripIf rmv os.accession) attrs true =
        .error (.schemaMismatch os.nRows rowIdx.length) := by
      intro attrs
      simp [batch_add_sparse, hne]
      rfl
    have hpb : processBatch inDs layer cellAttr label rowIdx
        ((stripIf rmv os.accession).flatMap
          (fun y => positionsOf y (stripIf rmv (select fr rowIdx ""))))
        (stripIf rmv os.accession) (stripIf rmv (select fr rowIdx "")) true
        (colIdx.take (max 1 bs)) ⟨some os, tr, none⟩ =
        ⟨some os, tr, some (.schemaMismatch os.nRows rowIdx.length)⟩ := by
      unfold processBatch
      simp only [hca, if_true, hbas]
    rcases List.exists_cons_of_ne_nil hcne with ⟨c0, crest, hc0⟩
    refine ⟨.schemaMismatch os.nRows rowIdx.length, ?_, .inr rfl,
      fun ids h => by cases h⟩
    rw [hred, hc0, chunkList_ne_nil, processBatches, ← hc0, hpb]
    exact processBatches_frozen _ _ _ _ _ _ _ _ _ _ _ rfl
  · -- some canonical identifier is missing locally: pandas KeyError
    push_neg at hsub
    rcases hsub with ⟨y, hy, hny⟩
    have hloce := locPositions_error hy hny
    refine ⟨.keyError ((stripIf rmv os.accession).filter
        (fun z => ¬ (stripIf rmv (select fr rowIdx "")).contains z)), ?_,
      .inl rfl, fun ids h => by cases h⟩
    simp only [low_mem_add_data, lowMemOutIds, getRa, hvra, hvca, hfr, hloce,
      Bool.false_eq_true, if_false, bind_ok_scf, bind_pure_scf, bind_err_scf]

/-- Witness for C3's amended statement: appending `wTgtX` (features
`B`, `A`, `X`) to the store with canonical order `[A, B]`. -/
theorem C3_witness :
    ∃ e, low_mem_add_data wTgtX "" "Accession" "CellID" (some "L0") none none
        false 5000 false ⟨some wStore, [false], none⟩ =
        ⟨some wStore, [false], some e⟩ ∧
      (e = .keyError ((stripIf false wStore.accession).filter
          (fun y => ¬ (stripIf false
            (select ["B", "A", "X"] [0, 1, 2] "")).contains y)) ∨
        e = .schemaMismatch wStore.nRows ([0, 1, 2] : List ℕ).length) ∧
      ∀ ids, e ≠ .featureAlignment ids :=
  C3_unmatched_feature_fails wTgtX "" "Accession" "CellID" (some "L0") none
    none false 5000 wStore [false] [0, 1, 2] [0] ["B", "A", "X"] ["t1"] "X"
    (by decide) (by decide) (by decide) (by decide) (by decide) (by decide)
    (by decide) (by decide) (by decide)

/-- Witness for C1's amended statement: the source block (k = 0) lacks
feature `X` (output row 2); the entry at its first sample is `none`. -/
theorem C1_witness :
    ∃ out, high_mem_integrate wSrcSp.ds (.scalar wTgtX) wSrcSp.layer
        (.scalar "") wSrcSp.featAttr (.scalar "Accession") wSrcSp.cellAttr
        (.scalar "CellID") wSrcSp.label (.scalar (some "L2")) wSrcSp.validRa
        (.scalar none) wSrcSp.validCa (.scalar none) false = .ok out ∧
      (out.matrix.getD 2 []).getD
        ((((wSrcSp :: [⟨wTgtX, "", "Accession", "CellID", some "L2", none,
            none⟩]).take 0).map
          (fun sp => (tgtCells sp).length)).sum + 0) (some 0) = none :=
  C1_absent_features_nan wSrcSp (.scalar wTgtX) (.scalar "")
    (.scalar "Accession") (.scalar "CellID") (.scalar (some "L2"))
    (.scalar none) (.scalar none) false
    [⟨wTgtX, "", "Accession", "CellID", some "L2", none, none⟩] rfl
    (by decide) (by decide) (by decide) (by decide) 0 0 2 (by decide)
    (by decide) (by decide) (by decide)

end SCF
